import Mathlib

/-!
Verification of the workstream orchestration engine of the task-manager
repository (backend/app/utils/scheduler.py, backend/app/services/WorkstreamOrchestrator.py,
backend/app/services/WorktreeManager.py, backend/app/models/Workstream.py,
backend/app/models/Orchestration.py).

The Python code is shallowly embedded: Python dicts become insertion-ordered
association lists with unique keys, Python sets become deduplicated lists,
`datetime` timestamps become natural numbers supplied through explicit `now`
parameters, and the float `rollback_threshold` together with the float
failure-rate comparison becomes exact rational arithmetic (all concrete
values used below are exactly representable in binary floating point, so the
rational model agrees with the float computation at every evaluated input).
Calls into the external world (futures of the thread pool, git subprocesses,
worktree creation) are modelled as explicit oracle parameters.  Fields of the
pydantic models that no modelled control flow ever reads (descriptions, tags,
complexity scores, timestamps inside allocation records) are omitted; each
omission is noted at the definition it concerns.
-/

/-! ### Association-list dictionaries (Python `dict` / `defaultdict`) -/

def dictLookup {α : Type} (l : List (String × α)) (k : String) : Option α :=
  (l.find? (fun p => p.1 == k)).map (fun p => p.2)

/-- Python `d[k] = v`: replace the value in place if the key exists, else
append the new binding (keys are unique in every dict this file builds). -/
def dictInsert {α : Type} : List (String × α) → String → α → List (String × α)
  | [], k, v => [(k, v)]
  | p :: l, k, v => if p.1 == k then (k, v) :: l else p :: dictInsert l k v

/-- Python `del d[k]`. -/
def dictErase {α : Type} (l : List (String × α)) (k : String) : List (String × α) :=
  l.filter (fun p => !(p.1 == k))

/-- Exact rational division written through `mkRat` (kernel-reducible, and
equal to `a / b` for every `b`, both sides taking division by zero to 0). -/
def ratDiv (a b : ℚ) : ℚ :=
  if b.num < 0 then mkRat (-(a.num * (b.den : Int))) (a.den * (-b.num).toNat)
  else mkRat (a.num * (b.den : Int)) (a.den * b.num.toNat)

/-! ### Enumerations from models/Workstream.py and models/Orchestration.py -/

inductive WorkstreamStatus where
  | PENDING | IN_PROGRESS | BLOCKED | COMPLETED | FAILED
  deriving DecidableEq, Repr

inductive DependencyType where
  | REQUIRES | SHARES_RESOURCE | OPTIONAL
  deriving DecidableEq, Repr

inductive ResourceType where
  | FILE | DATABASE | API_ENDPOINT | EXTERNAL_SERVICE | COMPUTATIONAL
  deriving DecidableEq, Repr

inductive ExecutionPhase where
  | SCHEDULED | RESOURCE_ALLOCATED | STARTING | RUNNING | COMPLETING
  | COMPLETED | FAILED | ROLLED_BACK
  deriving DecidableEq, Repr

inductive OrchestrationStatus where
  | INITIALIZING | SCHEDULING | EXECUTING | PAUSED | COMPLETED | FAILED
  | ROLLING_BACK
  deriving DecidableEq, Repr

inductive ResourceAllocationStatus where
  | AVAILABLE | ALLOCATED | CONFLICTED | RELEASED
  deriving DecidableEq, Repr

inductive ConflictResolutionStrategy where
  | PRIORITY_BASED | FIFO | LIFO | ROUND_ROBIN | MANUAL
  deriving DecidableEq, Repr

/-! ### Data model (models/Workstream.py) -/

/-- ResourceRequirement (estimated_duration omitted: never read by the
modelled control flow). -/
structure ResourceRequirement where
  resource_id : String
  resource_type : ResourceType
  resource_name : String
  is_exclusive : Bool := false
  deriving DecidableEq, Repr

/-- WorkstreamDependency (description omitted: never read).  In every caller
and test of the repository, `source_workstream_id` is the dependent item and
`target_workstream_id` is its prerequisite. -/
structure WorkstreamDependency where
  source_workstream_id : String
  target_workstream_id : String
  dependency_type : DependencyType
  is_critical : Bool := true
  deriving DecidableEq, Repr

/-- Workstream.  Omitted fields that no modelled control flow reads:
description, original_task_id, dependent_workstreams, tags, scores,
validation_errors.  Timestamps are naturals, actual_duration is the rational
minute count the code computes from them. -/
structure Workstream where
  id : String
  name : String := ""
  status : WorkstreamStatus := .PENDING
  priority : Int := 5
  dependencies : List WorkstreamDependency := []
  required_resources : List ResourceRequirement := []
  estimated_duration : Option Nat := none
  actual_duration : Option ℚ := none
  assigned_agent_id : Option String := none
  start_time : Option Nat := none
  completion_time : Option Nat := none
  deriving DecidableEq, Repr

/-- ResourceConflict (resolved / resolution_time omitted: never read). -/
structure ResourceConflict where
  resource_id : String
  resource_type : ResourceType
  conflicting_workstreams : List String
  conflict_type : String
  severity : String := "medium"
  resolution_strategy : ConflictResolutionStrategy := .PRIORITY_BASED
  deriving DecidableEq, Repr

/-! ### WorkstreamScheduler (utils/scheduler.py)

`self.dependency_graph` and `self.reverse_dependencies` are
`defaultdict(set)`; we model each as an insertion-ordered association list
from node to its deduplicated target list. -/

abbrev Graph := List (String × List String)

/-- One `dependency_graph[k].add(t)` on a `defaultdict(set)`: create the key
if absent, then add `t` with set semantics. -/
def graphAdd (g : Graph) (k t : String) : Graph :=
  match dictLookup g k with
  | none => g ++ [(k, [t])]
  | some ts => if t ∈ ts then g else dictInsert g k (ts ++ [t])

/-- Targets of a node: `self.dependency_graph.get(node, set())`. -/
def adj (g : Graph) (n : String) : List String :=
  (dictLookup g n).getD []

/-- Keys of the graph dict: what `for node in self.dependency_graph` iterates. -/
def keysOf (g : Graph) : List String :=
  g.map Prod.fst

/-- All nodes mentioned by the graph (keys and targets). -/
def nodesOf (g : Graph) : List String :=
  (g.map Prod.fst ++ (g.map Prod.snd).flatten).dedup

/-- WorkstreamScheduler._build_dependency_graph, lines 80-100.  Note: the
loop adds EVERY dependency edge, with no filtering on dependency_type or
is_critical, and it maps source (the dependent) to target (the
prerequisite) in dependency_graph, and target to source in
reverse_dependencies (the opposite of what the comments on lines 39-40
announce).  Returns (dependency_graph, reverse_dependencies). -/
def build_dependency_graph (workstreams : List Workstream) : Graph × Graph :=
  workstreams.foldl (fun gs w =>
    w.dependencies.foldl (fun gs dep =>
      if workstreams.any (fun x => x.id == dep.source_workstream_id) &&
          workstreams.any (fun x => x.id == dep.target_workstream_id) then
        (graphAdd gs.1 dep.source_workstream_id dep.target_workstream_id,
         graphAdd gs.2 dep.target_workstream_id dep.source_workstream_id)
      else gs) gs) ([], [])

/-- State of the recursive `dfs` closure inside _detect_cycles: the `visited`
set and the accumulated `cycles` list.  The Python `rec_stack` set always
equals the set of elements of the current `path` (both are extended at the
top of a frame and shrunk when it returns), so membership in `path` models
membership in `rec_stack`. -/
structure DfsState where
  visited : List String
  cycles : List (List String)
  deriving DecidableEq, Repr

/-- The recursive `dfs` of WorkstreamScheduler._detect_cycles, lines 108-125.
Recursion is fuelled; _detect_cycles supplies fuel exceeding the number of
graph nodes, which is more than the recursion depth the Python code can
reach (each nested frame first adds a fresh node to `visited`). -/
def dfsVisit (g : Graph) : Nat → String → List String → DfsState → DfsState
  | 0, _, _, s => s
  | fuel + 1, node, path, s =>
    if node ∈ path then
      { s with cycles := s.cycles ++ [path.drop (path.indexOf node) ++ [node]] }
    else if node ∈ s.visited then s
    else
      let s1 : DfsState := { s with visited := s.visited ++ [node] }
      (adj g node).foldl (fun acc nbr => dfsVisit g fuel nbr (path ++ [node]) acc) s1

/-- WorkstreamScheduler._detect_cycles, lines 102-131: run `dfs` from every
not-yet-visited key of the graph. -/
def detect_cycles (g : Graph) : List (List String) :=
  let fuel := (nodesOf g).length + 1
  ((keysOf g).foldl
    (fun s node => if node ∈ s.visited then s else dfsVisit g fuel node [] s)
    ⟨[], []⟩).cycles

/-- Python string comparison: lexicographic on the code-point sequence. -/
def charListLt : List Char → List Char → Bool
  | _, [] => false
  | [], _ :: _ => true
  | c :: cs, d :: ds => c.toNat < d.toNat || (c.toNat == d.toNat && charListLt cs ds)

def strLt (a b : String) : Bool := charListLt a.data b.data

/-- heapq pop on a list of (-priority, id) pairs: remove and return the
lexicographically least pair (Python tuple comparison: the Int first, the
id string as tiebreak).  All pairs pushed by the scheduler have distinct
ids, so this is exactly the heapq contract. -/
def popMin (q : List (Int × String)) : Option ((Int × String) × List (Int × String)) :=
  match q with
  | [] => none
  | x :: xs =>
    let m := xs.foldl (fun b a => if a.1 < b.1 || (a.1 == b.1 && strLt a.2 b.2) then a else b) x
    some (m, q.erase m)

/-- One pop of the while-loop of _calculate_execution_order, lines 149-160:
append the popped id to the order, then decrement the in-degree of each of
its graph targets, pushing those that reach zero (looking the workstream up
by id to read its priority, pushing its NEGATED priority). -/
def execution_order_step (workstreams : List Workstream) (fwd : Graph) (wid : String)
    (ready : List (Int × String)) (degs : List (String × Int)) :
    List (Int × String) × List (String × Int) :=
  (adj fwd wid).foldl (fun acc tgt =>
    let d := (dictLookup acc.2 tgt).getD 0 - 1
    let degs' := dictInsert acc.2 tgt d
    if d == 0 then
      match workstreams.find? (fun w => w.id == tgt) with
      | some w => (acc.1 ++ [(-w.priority, tgt)], degs')
      | none => (acc.1, degs')
    else (acc.1, degs')) (ready, degs)

/-- The while-loop of _calculate_execution_order, fuelled (the Python loop
terminates because every id is pushed at most once). -/
def execution_order_loop (workstreams : List Workstream) (fwd : Graph) :
    Nat → List (Int × String) → List (String × Int) → List String → List String
  | 0, _, _, order => order
  | fuel + 1, ready, degs, order =>
    match popMin ready with
    | none => order
    | some ((_, wid), rest) =>
      let (ready', degs') := execution_order_step workstreams fwd wid rest degs
      execution_order_loop workstreams fwd fuel ready' degs' (order ++ [wid])

/-- WorkstreamScheduler._calculate_execution_order, lines 133-167.
In-degree of an item = size of its reverse_dependencies entry; the ready
queue holds (-priority, id) pairs and pops the least one (the Python
comment on line 144 claims the negation makes lower priority numbers come
first; with a min-heap it does the opposite).  The final length check of
the source only logs a warning, so it is not modelled. -/
def calculate_execution_order (workstreams : List Workstream) (fwd rev : Graph) :
    List String :=
  let degs0 : List (String × Int) :=
    workstreams.foldl (fun m w =>
      dictInsert m w.id (((dictLookup rev w.id).getD []).length : Int)) []
  let ready0 : List (Int × String) :=
    workstreams.foldl (fun q w =>
      if (dictLookup degs0 w.id).getD 0 == 0 then q ++ [(-w.priority, w.id)] else q) []
  let fuel := workstreams.length + (fwd.map (fun p => p.2.length)).sum + 1
  execution_order_loop workstreams fwd fuel ready0 degs0 []

/-- The resource_usage defaultdict of _identify_resource_conflicts, lines
172-179: resource_id maps to the list of (workstream_id, is_exclusive)
pairs in encounter order. -/
def group_resource_usage (workstreams : List Workstream) :
    List (String × List (String × Bool)) :=
  workstreams.foldl (fun acc w =>
    w.required_resources.foldl (fun acc req =>
      match dictLookup acc req.resource_id with
      | none => acc ++ [(req.resource_id, [(w.id, req.is_exclusive)])]
      | some l => dictInsert acc req.resource_id (l ++ [(w.id, req.is_exclusive)])) acc) []

/-- WorkstreamScheduler._get_resource_type, lines 205-211. -/
def get_resource_type (resource_id : String) (workstreams : List Workstream) :
    ResourceType :=
  match workstreams.findSome? (fun w =>
      w.required_resources.find? (fun r => r.resource_id == resource_id)) with
  | some req => req.resource_type
  | none => .FILE

/-- The conflict entries contributed by one resource_usage group, lines
180-201. -/
def conflicts_for_group (workstreams : List Workstream) (rid : String)
    (usages : List (String × Bool)) : List ResourceConflict :=
  if usages.length > 1 then
    let exclusive_users := (usages.filter (fun u => u.2)).map (fun u => u.1)
    if exclusive_users.length > 1 then
      [{ resource_id := rid, resource_type := get_resource_type rid workstreams,
         conflicting_workstreams := exclusive_users,
         conflict_type := "exclusive_access", severity := "high" }]
    else if exclusive_users.length == 1 && usages.length > 1 then
      [{ resource_id := rid, resource_type := get_resource_type rid workstreams,
         conflicting_workstreams := usages.map (fun u => u.1),
         conflict_type := "exclusive_vs_shared", severity := "medium" }]
    else []
  else []

/-- WorkstreamScheduler._identify_resource_conflicts, lines 169-203. -/
def identify_resource_conflicts (workstreams : List Workstream) :
    List ResourceConflict :=
  (group_resource_usage workstreams).foldl
    (fun acc p => acc ++ conflicts_for_group workstreams p.1 p.2) []

/-- Duration of a workstream as used by _estimate_total_duration:
`workstream.estimated_duration or 0`. -/
def ws_duration (workstreams : List Workstream) (wid : String) : Nat :=
  match workstreams.find? (fun w => w.id == wid) with
  | some w => w.estimated_duration.getD 0
  | none => 0

/-- WorkstreamScheduler._estimate_total_duration, lines 213-241 (note the
source reads `reverse_dependencies`, which holds dependents, as if it held
dependencies; the model reproduces exactly that read). -/
def estimate_total_duration (workstreams : List Workstream)
    (execution_order : List String) (rev : Graph) : Nat :=
  let earliest : List (String × Nat) :=
    execution_order.foldl (fun es wid =>
      let latest := (adj rev wid).foldl (fun m dep =>
        match dictLookup es dep with
        | some s => max m (s + ws_duration workstreams dep)
        | none => m) 0
      dictInsert es wid latest) []
  execution_order.foldl (fun total wid =>
    max total (((dictLookup earliest wid).getD 0) + ws_duration workstreams wid)) 0

/-- The pair test of _identify_parallelization_opportunities, lines 249-266:
no direct dependency edge either way and no shared resource that either
side needs exclusively. -/
def can_parallelize (fwd : Graph) (w1 w2 : Workstream) : Bool :=
  !(adj fwd w2.id).contains w1.id && !(adj fwd w1.id).contains w2.id &&
    !(w1.required_resources.any (fun r1 =>
        w2.required_resources.any (fun r2 =>
          r1.resource_id == r2.resource_id && (r1.is_exclusive || r2.is_exclusive))))

/-- WorkstreamScheduler._identify_parallelization_opportunities, lines
243-269 (ordered pairs i < j in list order). -/
def identify_parallelization_opportunities (fwd : Graph) :
    List Workstream → List (List String)
  | [] => []
  | w1 :: rest =>
    rest.foldl (fun acc w2 =>
      if can_parallelize fwd w1 w2 then acc ++ [[w1.id, w2.id]] else acc) []
      ++ identify_parallelization_opportunities fwd rest

/-- The plan dict returned by build_execution_plan, lines 69-75. -/
structure ExecutionPlan where
  execution_order : List String
  resource_conflicts : List ResourceConflict
  dependency_graph : Graph
  estimated_duration : Nat
  parallelization_opportunities : List (List String)
  deriving DecidableEq, Repr

/-- WorkstreamScheduler.build_execution_plan, lines 42-78.  A nonempty cycle
list raises `ValueError(f"Circular dependencies detected: {cycles}")`; the
model carries the cycles list as the error payload. -/
def build_execution_plan (workstreams : List Workstream) :
    Except (List (List String)) ExecutionPlan :=
  let gs := build_dependency_graph workstreams
  match detect_cycles gs.1 with
  | [] =>
    let order := calculate_execution_order workstreams gs.1 gs.2
    .ok { execution_order := order,
          resource_conflicts := identify_resource_conflicts workstreams,
          dependency_graph := gs.1,
          estimated_duration := estimate_total_duration workstreams order gs.2,
          parallelization_opportunities :=
            identify_parallelization_opportunities gs.1 workstreams }
  | c :: cs => .error (c :: cs)

/-! ### ResourceManager (utils/scheduler.py, lines 272-392)

`allocated_resources` is a dict keyed by resource_id.  The datetime fields
(allocation_time, release_time) of ResourceAllocation are never read by any
modelled control flow and are omitted; the release-path writes to them (and
to status) happen on a record that is deleted in the same call. -/

/-- models/Orchestration.py ResourceAllocation (times omitted, see above). -/
structure ResourceAllocation where
  resource_id : String
  resource_type : ResourceType
  resource_name : String
  workstream_id : String
  status : ResourceAllocationStatus := .ALLOCATED
  is_exclusive : Bool := false
  deriving DecidableEq, Repr

structure RMState where
  allocated_resources : List (String × ResourceAllocation) := []
  resource_capacity : List (String × Nat) := []
  waiting_workstreams : List (String × List (String × Int)) := []
  deriving DecidableEq, Repr

/-- The `current_usage` count of _is_resource_available, lines 366-367:
allocations whose record's resource_id field equals the queried id. -/
def holder_count (s : RMState) (resource_id : String) : Nat :=
  (s.allocated_resources.filter (fun p => p.2.resource_id == resource_id)).length

/-- ResourceManager._is_resource_available, lines 349-371 (the
workstream_id argument is unused in the source too). -/
def is_resource_available (s : RMState) (resource_id : String) (_workstream_id : String)
    (is_exclusive : Bool) : Bool :=
  match dictLookup s.allocated_resources resource_id with
  | none => true
  | some current =>
    if current.is_exclusive then false
    else if is_exclusive then false
    else
      match dictLookup s.resource_capacity resource_id with
      | some cap => !(holder_count s resource_id ≥ cap)
      | none => true

/-- ResourceManager._get_workstream_priority, lines 373-375: a placeholder
returning the default priority. -/
def get_workstream_priority (_workstream_id : String) : Int := 5

/-- ResourceManager.allocate_resource, lines 282-319: on success the new
allocation record overwrites whatever the dict held at that resource_id;
on failure the request joins the wait queue. -/
def allocate_resource (s : RMState) (resource_id workstream_id : String)
    (resource_type : ResourceType) (resource_name : String)
    (is_exclusive : Bool := false) : Bool × RMState :=
  if is_resource_available s resource_id workstream_id is_exclusive then
    let allocation : ResourceAllocation :=
      { resource_id := resource_id, resource_type := resource_type,
        resource_name := resource_name, workstream_id := workstream_id,
        is_exclusive := is_exclusive }
    (true, { s with allocated_resources :=
                      dictInsert s.allocated_resources resource_id allocation })
  else
    let entry := (workstream_id, get_workstream_priority workstream_id)
    let waiting' :=
      match dictLookup s.waiting_workstreams resource_id with
      | none => s.waiting_workstreams ++ [(resource_id, [entry])]
      | some l => dictInsert s.waiting_workstreams resource_id (l ++ [entry])
    (false, { s with waiting_workstreams := waiting' })

/-- ResourceManager._process_waiting_workstreams, lines 377-392: the sorted
re-allocation loop only logs (a documented placeholder), then the queue for
that resource is cleared. -/
def process_waiting_workstreams (s : RMState) (resource_id : String) : RMState :=
  match dictLookup s.waiting_workstreams resource_id with
  | none => s
  | some _ => { s with waiting_workstreams :=
                         dictInsert s.waiting_workstreams resource_id [] }

/-- ResourceManager.release_resource, lines 321-347: succeeds only when the
single record at that resource_id names the releasing workstream. -/
def release_resource (s : RMState) (resource_id workstream_id : String) :
    Bool × RMState :=
  match dictLookup s.allocated_resources resource_id with
  | some allocation =>
    if allocation.workstream_id == workstream_id then
      let s1 : RMState :=
        { s with allocated_resources := dictErase s.allocated_resources resource_id }
      (true, process_waiting_workstreams s1 resource_id)
    else (false, s)
  | none => (false, s)

/-! ### ConflictResolver (utils/scheduler.py, lines 395-485) -/

/-- The resolution dict: selected_workstream_id plus the strategy actually
used (reasoning strings elided). -/
structure ConflictResolution where
  selected_workstream_id : Option String
  strategy : ConflictResolutionStrategy
  deriving DecidableEq, Repr

/-- ConflictResolver._resolve_priority_based, lines 428-448: pick the first
listed conflicting workstream with strictly smallest priority number. -/
def resolve_priority_based (conflict : ResourceConflict)
    (workstreams : List Workstream) : ConflictResolution :=
  let selected := conflict.conflicting_workstreams.foldl
    (fun (best : Option Workstream) wid =>
      match workstreams.find? (fun w => w.id == wid) with
      | some w =>
        match best with
        | none => some w
        | some b => if w.priority < b.priority then some w else some b
      | none => best) none
  { selected_workstream_id := selected.map (fun w => w.id),
    strategy := .PRIORITY_BASED }

/-- ConflictResolver.resolve_conflict with its strategy table, lines
400-485.  FIFO and the stateless ROUND_ROBIN pick the first listed item,
LIFO the last; an unknown strategy (MANUAL) falls back to PRIORITY_BASED. -/
def resolve_conflict (conflict : ResourceConflict) (workstreams : List Workstream) :
    ConflictResolution :=
  match conflict.resolution_strategy with
  | .PRIORITY_BASED => resolve_priority_based conflict workstreams
  | .FIFO => { selected_workstream_id := conflict.conflicting_workstreams.head?,
               strategy := .FIFO }
  | .LIFO => { selected_workstream_id := conflict.conflicting_workstreams.getLast?,
               strategy := .LIFO }
  | .ROUND_ROBIN => { selected_workstream_id := conflict.conflicting_workstreams.head?,
                      strategy := .ROUND_ROBIN }
  | .MANUAL => resolve_priority_based conflict workstreams

/-! ### WorktreeManager (services/WorktreeManager.py)

Git subprocess calls go through _run_git_command, which returns
(return_code, stdout, stderr); the external git world is an oracle mapping
the argument list to that triple.  Writing the on-disk config file
(_save_worktree_config) has no observable effect on the modelled state. -/

/-- One record of `active_worktrees` (created_at omitted: never read). -/
structure WorktreeInfo where
  workstream_id : String
  agent_id : String
  branch_name : String
  worktree_path : String
  status : String := "active"
  deriving DecidableEq, Repr

structure WTState where
  active_worktrees : List (String × WorktreeInfo) := []
  deriving DecidableEq, Repr

/-- The outcome of _run_git_command: return code, stdout, stderr. -/
abbrev GitOracle := List String → Int × String × String

/-- WorktreeManager.cleanup_worktree, lines 295-346: no recorded mapping is
a successful cleanup; otherwise remove the worktree (falling back to a
forced removal, and failing if that also fails), best-effort delete the
branch (its failure only logs), drop the mapping and report success. -/
def cleanup_worktree (st : WTState) (workstream_id : String) (git : GitOracle) :
    Bool × WTState :=
  match dictLookup st.active_worktrees workstream_id with
  | none => (true, st)
  | some info =>
    let r1 := git ["worktree", "remove", info.worktree_path]
    let removed :=
      if r1.1 ≠ 0 then (git ["worktree", "remove", info.worktree_path, "--force"]).1 == 0
      else true
    if removed then
      let _r3 := git ["branch", "-D", info.branch_name]
      (true, { st with active_worktrees := dictErase st.active_worktrees workstream_id })
    else (false, st)

/-! ### Orchestration data model (models/Orchestration.py) -/

/-- ExecutionContext.  `metadata["worktree_path"]` becomes the typed
worktree_path field; `metadata["future"]` (the stored pool handle) is
modelled by the future oracle below.  allocated_resources / execution_log
are never read and omitted. -/
structure ExecutionContext where
  workstream_id : String
  phase : ExecutionPhase := .SCHEDULED
  start_time : Option Nat := none
  completion_time : Option Nat := none
  error_message : Option String := none
  retry_count : Nat := 0
  max_retries : Nat := 3
  worktree_path : Option String := none
  deriving DecidableEq, Repr

/-- OrchestrationConfig.  The float rollback_threshold is an exact
rational; the per-resource-type limit fields (max_file_operations, ...)
are never read by any code path and are omitted. -/
structure OrchestrationConfig where
  max_concurrent_workstreams : Nat := 5
  max_retries_per_workstream : Nat := 3
  resource_conflict_strategy : ConflictResolutionStrategy := .PRIORITY_BASED
  enable_auto_rollback : Bool := true
  rollback_threshold : ℚ := mkRat 3 10
  monitoring_interval : Nat := 30
  timeout_per_workstream : Option Nat := none
  deriving DecidableEq, Repr

/-- OrchestrationMetrics restricted to the fields
_update_orchestration_metrics and _finalize_orchestration actually write
(the remaining fields keep their constructor defaults in the source and are
never read). -/
structure OrchestrationMetrics where
  total_workstreams : Nat := 0
  completed_workstreams : Nat := 0
  failed_workstreams : Nat := 0
  in_progress_workstreams : Nat := 0
  blocked_workstreams : Nat := 0
  total_execution_time : Option ℚ := none
  throughput_rate : Option ℚ := none
  retry_rate : ℚ := 0
  rollback_count : Nat := 0
  deriving DecidableEq, Repr

structure OrchestrationState where
  orchestration_id : String
  status : OrchestrationStatus := .INITIALIZING
  workstreams : List Workstream := []
  execution_contexts : List (String × ExecutionContext) := []
  resource_allocations : List (String × ResourceAllocation) := []
  config : OrchestrationConfig := {}
  metrics : OrchestrationMetrics := {}
  start_time : Option Nat := none
  completion_time : Option Nat := none
  errors : List String := []
  warnings : List String := []
  deriving DecidableEq, Repr

/-- OrchestrationRequest (resource_constraints omitted: the orchestrator
never reads it). -/
structure OrchestrationRequest where
  workstreams : List Workstream
  config : Option OrchestrationConfig := none
  priority_override : Option (List (String × Int)) := none
  deriving DecidableEq, Repr

/-! ### WorkstreamOrchestrator (services/WorkstreamOrchestrator.py)

The orchestration driver runs in a background thread and workers run in a
thread pool; the model serialises this interleaving.  Two oracles stand for
the external world: a FutureOracle telling, at the k-th completion scan,
whether a workstream's submitted future is done and with which outcome
(none = still pending, some true = worker returned status "completed",
some false = worker returned status "failed" or raised), and a
WorktreeOracle standing for WorktreeManager.create_worktree_for_workstream
(agent id to created path, none on failure). -/

abbrev FutureOracle := Nat → String → Option Bool

abbrev WorktreeOracle := String → String → Option String

/-- Update the (unique) workstream with the given id, modelling in-place
mutation of the shared Workstream object. -/
def update_workstream (o : OrchestrationState) (wid : String)
    (f : Workstream → Workstream) : OrchestrationState :=
  { o with workstreams := o.workstreams.map (fun w => if w.id == wid then f w else w) }

/-- Update the execution context stored under the given id. -/
def update_context (o : OrchestrationState) (wid : String)
    (f : ExecutionContext → ExecutionContext) : OrchestrationState :=
  { o with execution_contexts :=
      o.execution_contexts.map (fun p => if p.1 == wid then (p.1, f p.2) else p) }

/-- WorkstreamOrchestrator._can_start_workstream, lines 294-300: every
dependency's target must already be in the driver's completed set —
regardless of the dependency_type or is_critical flag of the edge. -/
def can_start_workstream (workstream : Workstream) (completed_workstreams : List String) :
    Bool :=
  workstream.dependencies.all (fun d => completed_workstreams.contains d.target_workstream_id)

/-- WorkstreamOrchestrator._release_workstream_resources, lines 514-525. -/
def release_workstream_resources (wid : String) (o : OrchestrationState) (rm : RMState) :
    OrchestrationState × RMState :=
  let resources_to_release :=
    (o.resource_allocations.filter (fun p => p.2.workstream_id == wid)).map (fun p => p.1)
  resources_to_release.foldl (fun acc rid =>
    ({ acc.1 with resource_allocations := dictErase acc.1.resource_allocations rid },
     (release_resource acc.2 rid wid).2)) (o, rm)

/-- WorkstreamOrchestrator._release_all_resources, lines 527-536 (iterating
a snapshot of the allocation items, as `list(...)` does). -/
def release_all_resources (o : OrchestrationState) (rm : RMState) :
    OrchestrationState × RMState :=
  o.resource_allocations.foldl (fun acc p =>
    ({ acc.1 with resource_allocations := dictErase acc.1.resource_allocations p.1 },
     (release_resource acc.2 p.1 p.2.workstream_id).2)) (o, rm)

def count_status (ws : List Workstream) (st : WorkstreamStatus) : Nat :=
  (ws.filter (fun w => w.status == st)).length

/-- WorkstreamOrchestrator._update_orchestration_metrics, lines 538-559:
the metrics object is REPLACED by a freshly constructed one whose
retry_rate and rollback_count are hard-coded to zero (both marked TODO in
the source), then the elapsed wall time is filled in. -/
def update_orchestration_metrics (o : OrchestrationState) (now : Nat) :
    OrchestrationState :=
  let m : OrchestrationMetrics :=
    { total_workstreams := o.workstreams.length,
      completed_workstreams := count_status o.workstreams .COMPLETED,
      failed_workstreams := count_status o.workstreams .FAILED,
      in_progress_workstreams := count_status o.workstreams .IN_PROGRESS,
      blocked_workstreams := count_status o.workstreams .BLOCKED,
      retry_rate := 0,
      rollback_count := 0 }
  let m :=
    match o.start_time with
    | some s => { m with total_execution_time := some (mkRat ((now : Int) - (s : Int)) 60) }
    | none => m
  { o with metrics := m }

/-- WorkstreamOrchestrator._initiate_rollback, lines 573-588. -/
def initiate_rollback (o : OrchestrationState) (rm : RMState) :
    OrchestrationState × RMState :=
  let o := { o with status := .ROLLING_BACK,
                    metrics := { o.metrics with
                                   rollback_count := o.metrics.rollback_count + 1 } }
  let o := o.workstreams.foldl (fun o w =>
    if w.status == .IN_PROGRESS then
      let o := update_workstream o w.id (fun w => { w with status := .FAILED })
      update_context o w.id (fun c => { c with phase := .ROLLED_BACK })
    else o) o
  release_all_resources o rm

/-- WorkstreamOrchestrator._check_rollback_conditions, lines 561-571: the
failure rate is failed-count over total, compared against the float
threshold (exact rational arithmetic here). -/
def check_rollback_conditions (o : OrchestrationState) (rm : RMState)
    (failed_workstreams : List String) : OrchestrationState × RMState :=
  let total := o.workstreams.length
  let failure_rate : ℚ :=
    if total > 0 then mkRat (failed_workstreams.length : Int) total else 0
  if failure_rate ≥ o.config.rollback_threshold then initiate_rollback o rm
  else (o, rm)

/-- WorkstreamOrchestrator._start_workstream_execution, lines 332-363,
composed with the first statement of the submitted worker
(_execute_single_workstream line 371 sets the context phase to RUNNING; the
pool of 10 workers has an idle thread for it immediately).  All later
worker effects are delivered through the future oracle. -/
def start_workstream_execution (wt : WorktreeOracle) (now : Nat) (wid : String)
    (o : OrchestrationState) : OrchestrationState :=
  let o := update_workstream o wid (fun w =>
    { w with status := .IN_PROGRESS, start_time := some now })
  let o := update_context o wid (fun c =>
    { c with phase := .STARTING, start_time := some now })
  let o :=
    match (o.workstreams.find? (fun w => w.id == wid)).bind
        (fun w => w.assigned_agent_id) with
    | some aid =>
      match wt wid aid with
      | some path => update_context o wid (fun c => { c with worktree_path := some path })
      | none => o
    | none => o
  update_context o wid (fun c => { c with phase := .RUNNING })

/-- WorkstreamOrchestrator._allocate_resources, lines 302-330: allocate the
requirements one by one; on the first refusal release whatever this
workstream already holds and report failure. -/
def allocate_resources_aux (wid : String) :
    List ResourceRequirement → OrchestrationState → RMState →
      Bool × OrchestrationState × RMState
  | [], o, rm => (true, o, rm)
  | req :: rest, o, rm =>
    let r := allocate_resource rm req.resource_id wid req.resource_type
      req.resource_name req.is_exclusive
    if r.1 then
      let allocation : ResourceAllocation :=
        { resource_id := req.resource_id, resource_type := req.resource_type,
          resource_name := req.resource_name, workstream_id := wid,
          is_exclusive := req.is_exclusive }
      allocate_resources_aux wid rest
        { o with resource_allocations :=
            dictInsert o.resource_allocations req.resource_id allocation } r.2
    else
      let or2 := release_workstream_resources wid o r.2
      (false, or2.1, or2.2)

def allocate_resources (w : Workstream) (o : OrchestrationState) (rm : RMState) :
    Bool × OrchestrationState × RMState :=
  allocate_resources_aux w.id w.required_resources o rm

/-- The mutable local state of _execute_workstreams together with the
orchestration, the resource manager and the scan counter indexing future
polls. -/
structure DriverState where
  orch : OrchestrationState
  rm : RMState
  running : List String := []
  completed : List String := []
  failed : List String := []
  scan : Nat := 0
  deriving DecidableEq, Repr

/-- Accumulator for one pass over `list(running_workstreams)` inside
_wait_for_workstream_completion. -/
structure ScanState where
  o : OrchestrationState
  rm : RMState
  running : List String
  completed : List String
  failed : List String
  completed_ids : List String := []
  failed_ids : List String := []
  deriving DecidableEq, Repr

/-- Lines 453-491: the per-workstream body of the scan.  The future check
(done / result status) is the oracle answer; a finished workstream has its
phase and status written, its resources released, and moves from the
running set into the completed or failed set. -/
def scan_running_one (fo : FutureOracle) (scan now : Nat) (acc : ScanState)
    (wid : String) : ScanState :=
  match dictLookup acc.o.execution_contexts wid with
  | none => acc
  | some _ =>
    let o1 :=
      match fo scan wid with
      | none => acc.o
      | some true =>
        let o := update_context acc.o wid (fun c => { c with phase := .COMPLETED })
        update_workstream o wid (fun w =>
          let w1 := { w with status := .COMPLETED, completion_time := some now }
          match w1.start_time with
          | some st => { w1 with actual_duration := some (mkRat ((now : Int) - (st : Int)) 60) }
          | none => w1)
      | some false =>
        let o := update_context acc.o wid (fun c =>
          { c with phase := .FAILED, error_message := some "Unknown error" })
        update_workstream o wid (fun w => { w with status := .FAILED })
    match dictLookup o1.execution_contexts wid with
    | none => { acc with o := o1 }
    | some ctx =>
      if ctx.phase == .COMPLETED || ctx.phase == .FAILED then
        let or2 := release_workstream_resources wid o1 acc.rm
        if ctx.phase == .COMPLETED then
          { acc with o := or2.1, rm := or2.2,
                     completed_ids := acc.completed_ids ++ [wid],
                     completed := acc.completed ++ [wid],
                     running := acc.running.erase wid }
        else
          { acc with o := or2.1, rm := or2.2,
                     failed_ids := acc.failed_ids ++ [wid],
                     failed := acc.failed ++ [wid],
                     running := acc.running.erase wid }
      else { acc with o := o1 }

/-- WorkstreamOrchestrator._wait_for_workstream_completion, lines 442-512.
Despite its name (and its docstring "Wait for at least one workstream to
complete") this performs a single non-blocking scan: when no future is
done it returns with the running set unchanged.  Metrics are updated and
rollback conditions checked only when the scan moved something; the
execution callback is an external observer with no effect on this state. -/
def wait_for_workstream_completion (fo : FutureOracle) (now : Nat) (d : DriverState) :
    DriverState :=
  let acc0 : ScanState :=
    { o := d.orch, rm := d.rm, running := d.running,
      completed := d.completed, failed := d.failed }
  let acc := d.running.foldl (scan_running_one fo d.scan now) acc0
  let changed := !(acc.completed_ids.isEmpty && acc.failed_ids.isEmpty)
  let o1 := if changed then update_orchestration_metrics acc.o now else acc.o
  let or2 :=
    if changed && o1.config.enable_auto_rollback then
      check_rollback_conditions o1 acc.rm acc.failed
    else (o1, acc.rm)
  { orch := or2.1, rm := or2.2, running := acc.running,
    completed := acc.completed, failed := acc.failed, scan := d.scan + 1 }

/-- The for-loop of WorkstreamOrchestrator._execute_workstreams, lines
270-288: admit each ready, allocatable workstream in plan order; after an
admission that reaches the concurrency limit, run one completion scan —
and then keep admitting, whatever that scan did. -/
def execute_workstreams_admission (fo : FutureOracle) (wt : WorktreeOracle)
    (now : Nat) (execution_order : List String) (d : DriverState) : DriverState :=
  execution_order.foldl (fun d wid =>
    match d.orch.workstreams.find? (fun w => w.id == wid) with
    | none => d
    | some w =>
      if !can_start_workstream w d.completed then d
      else
        let r := allocate_resources w d.orch d.rm
        if !r.1 then { d with orch := r.2.1, rm := r.2.2 }
        else
          let o2 := start_workstream_execution wt now wid r.2.1
          let d2 : DriverState :=
            { d with orch := o2, rm := r.2.2, running := d.running ++ [wid] }
          if d2.running.length ≥ d2.orch.config.max_concurrent_workstreams then
            wait_for_workstream_completion fo now d2
          else d2) d

/-- The trailing `while running_workstreams:` drain of _execute_workstreams,
lines 290-292, fuelled (the Python loop spins until the futures finish). -/
def execute_workstreams_drain (fo : FutureOracle) (now : Nat) :
    Nat → DriverState → DriverState
  | 0, d => d
  | fuel + 1, d =>
    if d.running.isEmpty then d
    else execute_workstreams_drain fo now fuel (wait_for_workstream_completion fo now d)

/-- WorkstreamOrchestrator._execute_workstreams, lines 260-292. -/
def execute_workstreams (fo : FutureOracle) (wt : WorktreeOracle) (now : Nat)
    (execution_order : List String) (drain_fuel : Nat)
    (o : OrchestrationState) (rm : RMState) : DriverState :=
  execute_workstreams_drain fo now drain_fuel
    (execute_workstreams_admission fo wt now execution_order { orch := o, rm := rm })

/-- WorkstreamOrchestrator._resolve_conflicts, lines 241-258 (the warning
string recorded for each loser is abbreviated to the loser's id). -/
def resolve_conflicts (o : OrchestrationState) (conflicts : List ResourceConflict) :
    OrchestrationState :=
  conflicts.foldl (fun o c =>
    let resolution := resolve_conflict c o.workstreams
    match resolution.selected_workstream_id with
    | none => o
    | some sel =>
      c.conflicting_workstreams.foldl (fun o wid =>
        if wid ≠ sel then
          match o.workstreams.find? (fun w => w.id == wid) with
          | some _ =>
            let o := update_workstream o wid (fun w => { w with status := .BLOCKED })
            { o with warnings := o.warnings ++ [wid] }
          | none => o
        else o) o) o

/-- WorkstreamOrchestrator._wait_for_completion, lines 590-617.  All
modelled worker completions are consumed during the drain, so by this point
the loop either sees no PENDING/IN_PROGRESS workstream and exits at once,
or spins to its 5-minute timeout and forces the stragglers FAILED. -/
def wait_for_completion (o : OrchestrationState) : OrchestrationState :=
  let active := o.workstreams.filter
    (fun w => w.status == .PENDING || w.status == .IN_PROGRESS)
  if active.isEmpty then o
  else
    active.foldl (fun o w =>
      let o := update_workstream o w.id (fun w => { w with status := .FAILED })
      update_context o w.id (fun c =>
        { c with phase := .FAILED,
                 error_message := some "Timeout waiting for completion" })) o

/-- WorkstreamOrchestrator._finalize_orchestration, lines 619-644: the final
status is COMPLETED unless EVERY workstream failed (partial failure counts
as completion), and the closing metrics update resets rollback_count. -/
def finalize_orchestration (o : OrchestrationState) (now : Nat) : OrchestrationState :=
  let failed_count := count_status o.workstreams .FAILED
  let total_count := o.workstreams.length
  let status : OrchestrationStatus :=
    if failed_count == 0 then .COMPLETED
    else if failed_count == total_count then .FAILED
    else .COMPLETED
  let o := { o with status := status, completion_time := some now }
  let o := update_orchestration_metrics o now
  match o.metrics.total_execution_time with
  | some t =>
    if t ≠ 0 then
      { o with metrics := { o.metrics with
          throughput_rate := some (ratDiv (mkRat (o.metrics.completed_workstreams : Int) 1) t) } }
    else o
  | none => o

/-- WorkstreamOrchestrator._execute_orchestration, lines 215-239 (the body
the background thread runs; the except-branch is unreachable in the model,
which raises nothing). -/
def execute_orchestration (fo : FutureOracle) (wt : WorktreeOracle) (now : Nat)
    (drain_fuel : Nat) (o : OrchestrationState) (rm : RMState)
    (plan : ExecutionPlan) : OrchestrationState × RMState :=
  let o := { o with status := .SCHEDULING }
  let o := resolve_conflicts o plan.resource_conflicts
  let o := { o with status := .EXECUTING }
  let d := execute_workstreams fo wt now plan.execution_order drain_fuel o rm
  let o := wait_for_completion d.orch
  (finalize_orchestration o now, d.rm)

/-- Initialization of execution contexts, start_orchestration lines 96-100. -/
def init_execution_contexts (ws : List Workstream) (config : OrchestrationConfig) :
    List (String × ExecutionContext) :=
  ws.map (fun w => (w.id, { workstream_id := w.id,
                            max_retries := config.max_retries_per_workstream }))

/-- The priority_override loop of start_orchestration, lines 78-81. -/
def apply_priority_override (ws : List Workstream) (ov : List (String × Int)) :
    List Workstream :=
  ws.map (fun w =>
    match dictLookup ov w.id with
    | some p => { w with priority := p }
    | none => w)

/-- WorkstreamOrchestrator.start_orchestration, lines 60-113.  A cycle makes
build_execution_plan raise, the exception is re-raised to the caller
(lines 111-113) before the state is stored (line 103) and before
_start_execution spawns the driver thread (line 106): on error nothing is
registered, no context exists, no thread runs.  On success the stored
state (with its initialized contexts) and the plan handed to the driver
thread are returned. -/
def start_orchestration (request : OrchestrationRequest) (oid : String) (now : Nat) :
    Except (List (List String)) (OrchestrationState × ExecutionPlan) :=
  let config := request.config.getD {}
  let ws :=
    match request.priority_override with
    | some ov => apply_priority_override request.workstreams ov
    | none => request.workstreams
  match build_execution_plan ws with
  | .error cycles => .error cycles
  | .ok plan =>
    .ok ({ orchestration_id := oid, status := .INITIALIZING, workstreams := ws,
           config := config, start_time := some now,
           execution_contexts := init_execution_contexts ws config }, plan)

/-- WorkstreamOrchestrator.stop_orchestration, lines 169-190: any
registered orchestration — whatever its status, terminal or not — is
stamped FAILED with a fresh completion time, its resources are released,
and True is returned. -/
def stop_orchestration (orchs : List (String × OrchestrationState)) (rm : RMState)
    (oid : String) (now : Nat) :
    Bool × List (String × OrchestrationState) × RMState :=
  match dictLookup orchs oid with
  | none => (false, orchs, rm)
  | some o =>
    let o1 := { o with status := .FAILED, completion_time := some now }
    let or2 := release_all_resources o1 rm
    (true, dictInsert orchs oid or2.1, or2.2)

/-! ### Concrete scenarios used by the claims -/

/-- Projection of the plan's execution order (the fallback branch is
unreachable for the acyclic inputs it is applied to). -/
def execution_order_of (ws : List Workstream) : List String :=
  match build_execution_plan ws with
  | .ok p => p.execution_order
  | .error _ => []

def empty_plan : ExecutionPlan :=
  { execution_order := [], resource_conflicts := [], dependency_graph := [],
    estimated_duration := 0, parallelization_opportunities := [] }

/-- The plan the driver thread receives (fallback unreachable for acyclic
inputs). -/
def plan_of (ws : List Workstream) : ExecutionPlan :=
  match build_execution_plan ws with
  | .ok p => p
  | .error _ => empty_plan

/-- An edge stating that `s` depends on (requires/shares with/optionally
wants) `t`, as every caller of the orchestrator constructs it. -/
def mkDep (s t : String) (ty : DependencyType) (crit : Bool := true) :
    WorkstreamDependency :=
  { source_workstream_id := s, target_workstream_id := t,
    dependency_type := ty, is_critical := crit }

/-- Future oracle of a run in which no worker has finished yet (each worker
sleeps for at least 60 seconds of wall time, lines 375-376, while the
admission loop polls without sleeping). -/
def foNone : FutureOracle := fun _ _ => none

/-- No workstream has an assigned agent, so no worktree is created. -/
def wtNone : WorktreeOracle := fun _ _ => none

/-- C1 scenario: A (priority 1, no dependencies), B (priority 1, critically
requires A). -/
def c1_A : Workstream := { id := "A", priority := 1 }

def c1_B : Workstream :=
  { id := "B", priority := 1, dependencies := [mkDep "B" "A" .REQUIRES] }

/-- C3 scenario: five independent workstreams, concurrency bound 3. -/
def c3_items : List Workstream :=
  [{ id := "w1" }, { id := "w2" }, { id := "w3" }, { id := "w4" }, { id := "w5" }]

def c3_config : OrchestrationConfig := { max_concurrent_workstreams := 3 }

def c3_state : OrchestrationState :=
  { orchestration_id := "o3", workstreams := c3_items, config := c3_config,
    start_time := some 0,
    execution_contexts := init_execution_contexts c3_items c3_config }

/-- The driver state right after the admission loop of _execute_workstreams
has processed the whole plan, with no future finished yet. -/
def c3_driver : DriverState :=
  execute_workstreams_admission foNone wtNone 0 (plan_of c3_items).execution_order
    { orch := c3_state, rm := {} }

/-- C4 scenario: two independent workstreams, X fails and Y completes,
auto-rollback at threshold one half. -/
def c4_X : Workstream := { id := "X" }

def c4_Y : Workstream := { id := "Y" }

def c4_config : OrchestrationConfig :=
  { max_concurrent_workstreams := 5, rollback_threshold := mkRat 1 2 }

def c4_state : OrchestrationState :=
  { orchestration_id := "o4", workstreams := [c4_X, c4_Y], config := c4_config,
    start_time := some 0,
    execution_contexts := init_execution_contexts [c4_X, c4_Y] c4_config }

/-- Worker outcomes: X's future resolves to a failure report, Y's to a
completion report. -/
def c4_fo : FutureOracle := fun _ wid => if wid == "X" then some false else some true

/-- The driver state after _execute_workstreams has drained (both futures
processed in one scan, triggering the rollback check). -/
def c4_mid : DriverState :=
  execute_workstreams c4_fo wtNone 0 (plan_of [c4_X, c4_Y]).execution_order 3
    c4_state {}

/-- The orchestration state _execute_orchestration leaves behind at the end
of the run. -/
def c4_final : OrchestrationState :=
  (execute_orchestration c4_fo wtNone 0 3 c4_state {} (plan_of [c4_X, c4_Y])).1

/-- C5 scenario inputs: two independent items with distinct priorities, and
two equal-priority items whose insertion order disagrees with the
lexicographic order of their ids. -/
def c5_a1 : Workstream := { id := "a", priority := 1 }

def c5_b2 : Workstream := { id := "b", priority := 2 }

def c5_z5 : Workstream := { id := "z", priority := 5 }

def c5_a5 : Workstream := { id := "a", priority := 5 }

/-- C6 scenario: B carries a single OPTIONAL, non-critical edge towards A
(per models/Workstream.py an optional dependency means B "can start before
A"); and a variant pair whose only edge is SHARES_RESOURCE. -/
def c6_A : Workstream := { id := "A" }

def c6_B : Workstream :=
  { id := "B", dependencies := [mkDep "B" "A" .OPTIONAL false] }

def c6_Bsr : Workstream :=
  { id := "B", dependencies := [mkDep "B" "A" .SHARES_RESOURCE] }

/-- C7 scenario: X and Y request resource r exclusively, Z requests the same
r shared. -/
def c7_req (excl : Bool) : ResourceRequirement :=
  { resource_id := "r", resource_type := .DATABASE, resource_name := "db",
    is_exclusive := excl }

def c7_X : Workstream := { id := "X", required_resources := [c7_req true] }

def c7_Y : Workstream := { id := "Y", required_resources := [c7_req true] }

def c7_Z : Workstream := { id := "Z", required_resources := [c7_req false] }

/-! ### Semantic graph notions and proof instrumentation for the cycle
detector -/

/-- An edge of the scheduling graph. -/
def gEdge (g : Graph) (a b : String) : Prop := b ∈ adj g a

instance (g : Graph) (a b : String) : Decidable (gEdge g a b) :=
  inferInstanceAs (Decidable (b ∈ adj g a))

/-- A nonempty closed walk: at least one edge, consecutive elements joined
by edges, and identical first and last element.  This is what one entry of
the detector's cycle report is. -/
def isClosedWalk (g : Graph) (c : List String) : Prop :=
  2 ≤ c.length ∧ List.Chain' (gEdge g) c ∧ c.head? = c.getLast?

/-- The dependency graph of an item set contains a cycle: some node reaches
itself by a nonempty edge walk. -/
def hasCycle (g : Graph) : Prop :=
  ∃ a l, List.Chain (gEdge g) a (l ++ [a])

/-- dfsVisit instrumented with a ghost finish list: nodes in the order the
frames that visited them returned (the order of `rec_stack.remove`).
Forgetting `fin` gives back dfsVisit (proved below). -/
structure DfsIState where
  visited : List String
  cycles : List (List String)
  fin : List String

def dfsVisitI (g : Graph) : Nat → String → List String → DfsIState → DfsIState
  | 0, _, _, s => s
  | fuel + 1, node, path, s =>
    if node ∈ path then
      { s with cycles := s.cycles ++ [path.drop (path.indexOf node) ++ [node]] }
    else if node ∈ s.visited then s
    else
      let s1 : DfsIState := { s with visited := s.visited ++ [node] }
      let s2 := (adj g node).foldl
        (fun acc nbr => dfsVisitI g fuel nbr (path ++ [node]) acc) s1
      { s2 with fin := s2.fin ++ [node] }

/-- A finish list certifies acyclicity: every successor of the i-th
finished node had already finished strictly earlier. -/
def goodFin (g : Graph) (F : List String) : Prop :=
  ∀ i, (h : i < F.length) → ∀ b ∈ adj g (F.get ⟨i, h⟩), b ∈ F.take i

/-- How many graph nodes a dfs run may still visit (its recursion depth
budget). -/
def notVisCount (g : Graph) (V : List String) : Nat :=
  ((nodesOf g).filter (fun x => !(V.contains x))).length

/-- The instrumented version of the whole _detect_cycles run. -/
def detectI (g : Graph) : DfsIState :=
  let fuel := (nodesOf g).length + 1
  (keysOf g).foldl
    (fun s node => if node ∈ s.visited then s else dfsVisitI g fuel node [] s)
    ⟨[], [], []⟩

/-- Invariant tying the key of each ResourceManager allocation record to
the record's own resource_id, with pairwise distinct keys — true of every
state the ResourceManager can reach from its empty initial state. -/
def rm_table_ok (s : RMState) : Prop :=
  (∀ p ∈ s.allocated_resources, p.2.resource_id = p.1) ∧
    (s.allocated_resources.map Prod.fst).Nodup

/-- The allocation record allocate_resource constructs. -/
def mkAllocation (rid : String) (rt : ResourceType) (rn wsid : String) (ex : Bool) :
    ResourceAllocation :=
  { resource_id := rid, resource_type := rt, resource_name := rn,
    workstream_id := wsid, is_exclusive := ex }

/-! ### Witness inputs -/

/-- A two-cycle: A requires B and B requires A. -/
def cyc_A : Workstream := { id := "A", dependencies := [mkDep "A" "B" .REQUIRES] }

def cyc_B : Workstream := { id := "B", dependencies := [mkDep "B" "A" .REQUIRES] }

/-- An orchestration request whose item set is the two-cycle. -/
def c2_request : OrchestrationRequest := { workstreams := [cyc_A, cyc_B] }

/-- A git world in which every command succeeds. -/
def gitOK : GitOracle := fun _ => (0, "", "")

def c8_info : WorktreeInfo :=
  { workstream_id := "w", agent_id := "ag", branch_name := "br",
    worktree_path := "/tmp/wt" }

def c8_state : WTState := { active_worktrees := [("w", c8_info)] }

/-- An orchestration already in the terminal COMPLETED status. -/
def c10_orch : OrchestrationState :=
  { orchestration_id := "o", status := .COMPLETED, workstreams := [c4_X],
    completion_time := some 3 }

/-! ### Claim theorems (part 1: evaluations of the code at failing inputs) -/

/-- C1: the claim states that build_execution_plan orders every item after
its critical dependencies and in particular returns [A, B] for A(priority 1,
no dependencies), B(priority 1, requires A).  The code computes each item's
in-degree from reverse_dependencies, which _build_dependency_graph fills
with DEPENDENTS (contradicting the comments on scheduler.py lines 39-40),
so the returned order is ["B", "A"]: B is placed BEFORE the critical
dependency A it requires. -/
theorem C1_order_puts_dependent_before_dependency :
    execution_order_of [c1_A, c1_B] = ["B", "A"] ∧
      c1_B.dependencies = [mkDep "B" "A" .REQUIRES] ∧
      (mkDep "B" "A" .REQUIRES).is_critical = true := by
  refine ⟨by decide, rfl, rfl⟩

/-- C3: the claim states that the number of simultaneously RUNNING items
never exceeds max_concurrent_workstreams (3 here, with 5 independent
items).  One pass of _wait_for_workstream_completion does not wait (its
docstring notwithstanding): with all five workers still sleeping, the
admission loop admits every item, so five execution contexts are RUNNING
at once while the bound is 3 and nothing has completed. -/
theorem C3_admission_exceeds_concurrency_bound :
    c3_state.config.max_concurrent_workstreams = 3 ∧
      (plan_of c3_items).execution_order = ["w1", "w2", "w3", "w4", "w5"] ∧
      c3_driver.running = ["w1", "w2", "w3", "w4", "w5"] ∧
      (c3_driver.orch.execution_contexts.filter
        (fun p => p.2.phase == .RUNNING)).length = 5 ∧
      c3_driver.completed = [] ∧ c3_driver.failed = [] := by
  refine ⟨rfl, by decide, by decide, by decide, by decide, by decide⟩

/-- C4: the claim states that once failed/total reaches the rollback
threshold the status becomes ROLLING_BACK then finally FAILED and
rollback_count ends the run increased by exactly 1.  With X failed and Y
completed at threshold 1/2 the rollback DOES fire mid-run (status
ROLLING_BACK, rollback_count 1), but _finalize_orchestration then sets
status COMPLETED (partial success branch, line 630) and its closing
_update_orchestration_metrics rebuilds the metrics with rollback_count
hard-coded to 0 (line 553, marked TODO), so the run ends COMPLETED with
rollback_count 0. -/
theorem C4_rollback_count_and_final_status_lost :
    c4_state.config.enable_auto_rollback = true ∧
      c4_state.config.rollback_threshold = mkRat 1 2 ∧
      c4_mid.orch.status = .ROLLING_BACK ∧
      c4_mid.orch.metrics.rollback_count = 1 ∧
      c4_final.status = .COMPLETED ∧
      c4_final.metrics.rollback_count = 0 ∧
      count_status c4_final.workstreams .FAILED = 1 ∧
      c4_final.workstreams.length = 2 := by
  refine ⟨rfl, by decide, by decide, by decide, by decide, by decide, by decide, by decide⟩

/-- C5: the claim states that among simultaneously ready items the lower
priority number is emitted first and equal-priority ties follow insertion
order.  The scheduler pushes (-priority, id) into a MIN-heap, so priority
2 pops before priority 1 (["b", "a"] instead of the claimed ["a", "b"]),
and equal-priority ties are broken by the lexicographic order of the id in
the tuple comparison, not by insertion order (["a", "z"] for insertion
order [z, a]). -/
theorem C5_priority_inverted_and_ties_by_id :
    execution_order_of [c5_a1, c5_b2] = ["b", "a"] ∧
      execution_order_of [c5_z5, c5_a5] = ["a", "z"] := by
  exact ⟨by decide, by decide⟩

/-- C6: the claim states that only `requires` edges gate scheduling and
admission.  _can_start_workstream blocks B on its single OPTIONAL,
non-critical edge (the model's own docstring says an optional dependency
lets B start first), and _build_dependency_graph files a SHARES_RESOURCE
edge into the scheduling graph. -/
theorem C6_every_edge_kind_gates :
    can_start_workstream c6_B [] = false ∧
      c6_B.dependencies.all (fun d => d.dependency_type == .REQUIRES) = false ∧
      c6_B.dependencies.all (fun d => d.is_critical) = false ∧
      (build_dependency_graph [c6_A, c6_Bsr]).1 = [("B", ["A"])] := by
  exact ⟨by decide, by decide, by decide, by decide⟩

/-- C7 counterexample: the claim states that EVERY pair of items requesting
the same resource, at least one exclusively, yields one conflict entry
listing both.  With X, Y exclusive and Z shared on resource r, the pair
(X, Z) requests r with X exclusive, yet the single entry produced for r
lists only the exclusive requesters [X, Y]: no entry contains Z. -/
theorem C7_shared_requester_omitted_counterexample :
    (c7_X.required_resources.map (fun r => (r.resource_id, r.is_exclusive)) =
        [("r", true)]) ∧
      (c7_Z.required_resources.map (fun r => (r.resource_id, r.is_exclusive)) =
        [("r", false)]) ∧
      ((identify_resource_conflicts [c7_X, c7_Y, c7_Z]).map
        (fun c => (c.resource_id, c.conflicting_workstreams)) = [("r", ["X", "Y"])]) ∧
      ((identify_resource_conflicts [c7_X, c7_Y, c7_Z]).any
        (fun c => c.conflicting_workstreams.contains "Z")) = false := by
  exact ⟨by decide, by decide, by decide, by decide⟩

/-! ### Dictionary lemmas -/

theorem dictLookup_cons {α : Type} (p : String × α) (l : List (String × α)) (k : String) :
    dictLookup (p :: l) k = if p.1 == k then some p.2 else dictLookup l k := by
  by_cases h : p.1 == k <;> simp [dictLookup, List.find?_cons, h]

theorem dictLookup_eq_none_iff {α : Type} (l : List (String × α)) (k : String) :
    dictLookup l k = none ↔ ∀ p ∈ l, p.1 ≠ k := by
  induction l with
  | nil => simp [dictLookup]
  | cons p l ih =>
    rw [dictLookup_cons]
    by_cases h : p.1 == k
    · have hk : p.1 = k := by simpa using h
      simp [h, hk]
    · have hk : p.1 ≠ k := by simpa using h
      simp [h, ih, hk]

theorem dictLookup_dictInsert_self {α : Type} (l : List (String × α)) (k : String) (v : α) :
    dictLookup (dictInsert l k v) k = some v := by
  induction l with
  | nil => simp [dictInsert, dictLookup_cons]
  | cons p l ih =>
    by_cases h : p.1 == k
    · simp [dictInsert, h, dictLookup_cons]
    · simp [dictInsert, h, dictLookup_cons, ih]

theorem dictLookup_dictInsert_ne {α : Type} (l : List (String × α)) (k k' : String) (v : α)
    (h : k' ≠ k) : dictLookup (dictInsert l k v) k' = dictLookup l k' := by
  induction l with
  | nil =>
    have : (k == k') = false := by simpa using fun e => h e.symm
    simp [dictInsert, dictLookup_cons, this, dictLookup]
  | cons p l ih =>
    by_cases hp : p.1 == k
    · have hk : p.1 = k := by simpa using hp
      have h1 : (k == k') = false := by simpa using fun e => h e.symm
      have h2 : (p.1 == k') = false := by simp [hk]; exact fun e => h e.symm
      simp [dictInsert, hp, dictLookup_cons, h1, h2]
    · have hp' : (p.1 == k) = false := by simpa using hp
      simp only [dictInsert, hp', if_false, Bool.false_eq_true]
      rw [dictLookup_cons, dictLookup_cons, ih]

theorem mem_dictInsert {α : Type} {l : List (String × α)} {k : String} {v : α} {p : String × α}
    (h : p ∈ dictInsert l k v) : p = (k, v) ∨ p ∈ l := by
  induction l with
  | nil => simpa [dictInsert] using h
  | cons q l ih =>
    by_cases hq : q.1 == k
    · simp only [dictInsert, hq, if_true] at h
      rcases List.mem_cons.mp h with rfl | h'
      · exact Or.inl rfl
      · exact Or.inr (List.mem_cons_of_mem _ h')
    · simp only [dictInsert, hq, if_false] at h
      rcases List.mem_cons.mp h with rfl | h'
      · exact Or.inr (List.mem_cons_self _ _)
      · rcases ih h' with h'' | h''
        · exact Or.inl h''
        · exact Or.inr (List.mem_cons_of_mem _ h'')

theorem mem_keys_dictInsert {α : Type} {l : List (String × α)} {k : String} {v : α} {x : String}
    (h : x ∈ (dictInsert l k v).map Prod.fst) : x ∈ l.map Prod.fst ∨ x = k := by
  rcases List.mem_map.mp h with ⟨p, hp, rfl⟩
  rcases mem_dictInsert hp with rfl | hp'
  · exact Or.inr rfl
  · exact Or.inl (List.mem_map.mpr ⟨p, hp', rfl⟩)

theorem keys_dictInsert_nodup {α : Type} {l : List (String × α)} (k : String) (v : α)
    (h : (l.map Prod.fst).Nodup) : ((dictInsert l k v).map Prod.fst).Nodup := by
  induction l with
  | nil => simp [dictInsert]
  | cons p l ih =>
    simp only [List.map_cons, List.nodup_cons] at h
    by_cases hp : p.1 == k
    · have hk : p.1 = k := by simpa using hp
      simp only [dictInsert, hp, if_true, List.map_cons, List.nodup_cons]
      exact ⟨hk ▸ h.1, h.2⟩
    · have hk : p.1 ≠ k := by simpa using hp
      have hp' : (p.1 == k) = false := by simpa using hp
      simp only [dictInsert, hp', if_false, Bool.false_eq_true, List.map_cons,
        List.nodup_cons]
      refine ⟨fun hmem => ?_, ih h.2⟩
      rcases mem_keys_dictInsert hmem with h' | h'
      · exact h.1 h'
      · exact hk h'

theorem dictLookup_dictErase_self {α : Type} (l : List (String × α)) (k : String) :
    dictLookup (dictErase l k) k = none := by
  rw [dictLookup_eq_none_iff]
  intro p hp
  have := List.of_mem_filter hp
  simpa using this

theorem mem_dictErase {α : Type} {l : List (String × α)} {k : String} {p : String × α}
    (h : p ∈ dictErase l k) : p ∈ l :=
  List.mem_of_mem_filter h

theorem keys_dictErase_nodup {α : Type} {l : List (String × α)} (k : String)
    (h : (l.map Prod.fst).Nodup) : ((dictErase l k).map Prod.fst).Nodup := by
  have hsub : List.Sublist ((dictErase l k).map Prod.fst) (l.map Prod.fst) :=
    (List.filter_sublist l).map Prod.fst
  exact h.sublist hsub

/-! ### Release-all lemmas -/

theorem release_all_aux (l : List (String × ResourceAllocation)) :
    ∀ (o : OrchestrationState) (rm : RMState),
      (l.foldl (fun acc p =>
        ({ acc.1 with resource_allocations := dictErase acc.1.resource_allocations p.1 },
         (release_resource acc.2 p.1 p.2.workstream_id).2)) (o, rm)).1
      = { o with resource_allocations :=
            l.foldl (fun a p => dictErase a p.1) o.resource_allocations } := by
  induction l with
  | nil => intro o rm; rfl
  | cons q l ih =>
    intro o rm
    simp only [List.foldl_cons]
    rw [ih]

theorem foldl_dictErase_eq_filter {α : Type} (l : List (String × α)) :
    ∀ (acc : List (String × α)),
      l.foldl (fun a p => dictErase a p.1) acc
        = acc.filter (fun p => !(l.any (fun q => q.1 == p.1))) := by
  induction l with
  | nil => intro acc; simp
  | cons q l ih =>
    intro acc
    simp only [List.foldl_cons]
    rw [ih]
    unfold dictErase
    rw [List.filter_filter]
    apply List.filter_congr
    intro p _
    simp only [List.any_cons, Bool.not_or, Bool.and_comm]
    congr 1
    congr 1
    by_cases h : p.1 = q.1
    · simp [h]
    · have h1 : (p.1 == q.1) = false := by simpa using h
      have h2 : (q.1 == p.1) = false := by simpa using fun e => h e.symm
      rw [h1, h2]

theorem foldl_dictErase_self {α : Type} (l : List (String × α)) :
    l.foldl (fun a p => dictErase a p.1) l = [] := by
  rw [foldl_dictErase_eq_filter]
  rw [List.filter_eq_nil_iff]
  intro p hp
  have h : l.any (fun q => q.1 == p.1) = true := List.any_eq_true.mpr ⟨p, hp, by simp⟩
  simp [h]

theorem release_all_resources_fst (o : OrchestrationState) (rm : RMState) :
    (release_all_resources o rm).1 = { o with resource_allocations := [] } := by
  unfold release_all_resources
  rw [release_all_aux, foldl_dictErase_self]

/-- C10: for every registered orchestration id, stop_orchestration returns
True whatever the current status is — in particular a COMPLETED
orchestration is overwritten to FAILED — its completion time is refreshed
and its allocation table emptied. -/
theorem C10_stop_overwrites_any_status :
    ∀ (orchs : List (String × OrchestrationState)) (rm : RMState) (oid : String)
      (now : Nat) (o : OrchestrationState),
      dictLookup orchs oid = some o →
      (stop_orchestration orchs rm oid now).1 = true ∧
        dictLookup (stop_orchestration orchs rm oid now).2.1 oid =
          some { o with status := .FAILED, completion_time := some now,
                        resource_allocations := [] } := by
  intro orchs rm oid now o h
  unfold stop_orchestration
  rw [h]
  refine ⟨rfl, ?_⟩
  show dictLookup (dictInsert orchs oid
      (release_all_resources
        { o with status := .FAILED, completion_time := some now } rm).1) oid = _
  rw [release_all_resources_fst, dictLookup_dictInsert_self]

/-- Witness for C10 at a concrete COMPLETED orchestration. -/
theorem C10_stop_overwrites_any_status_witness :
    (stop_orchestration [("o", c10_orch)] {} "o" 7).1 = true ∧
      dictLookup (stop_orchestration [("o", c10_orch)] {} "o" 7).2.1 "o" =
        some { c10_orch with status := .FAILED, completion_time := some 7,
                             resource_allocations := [] } :=
  C10_stop_overwrites_any_status [("o", c10_orch)] {} "o" 7 c10_orch (by decide)

/-- A successful cleanup leaves no mapping behind. -/
theorem cleanup_worktree_true_clears (st : WTState) (wid : String) (git : GitOracle)
    (h : (cleanup_worktree st wid git).1 = true) :
    dictLookup (cleanup_worktree st wid git).2.active_worktrees wid = none := by
  cases hl : dictLookup st.active_worktrees wid with
  | none =>
    simp only [cleanup_worktree, hl]
  | some info =>
    simp only [cleanup_worktree, hl] at h ⊢
    by_cases hrem : (if (git ["worktree", "remove", info.worktree_path]).1 ≠ 0 then
        ((git ["worktree", "remove", info.worktree_path, "--force"]).1 == 0) else true) = true
    · simp only [hrem, if_true]
      exact dictLookup_dictErase_self _ _
    · simp only [Bool.not_eq_true] at hrem
      simp only [hrem, Bool.false_eq_true, if_false] at h
  
/-- C8: cleanup_worktree succeeds on any item with no recorded workspace
mapping, and succeeds again on an item it has just cleaned up. -/
theorem C8_cleanup_idempotent :
    (∀ (st : WTState) (wid : String) (git : GitOracle),
        dictLookup st.active_worktrees wid = none →
        (cleanup_worktree st wid git).1 = true) ∧
      (∀ (st : WTState) (wid : String) (git git2 : GitOracle),
        (cleanup_worktree st wid git).1 = true →
        (cleanup_worktree (cleanup_worktree st wid git).2 wid git2).1 = true) := by
  constructor
  · intro st wid git h
    simp only [cleanup_worktree, h]
  · intro st wid git git2 h
    have hnone := cleanup_worktree_true_clears st wid git h
    generalize hX : (cleanup_worktree st wid git).2 = X at hnone
    simp only [cleanup_worktree, hnone]

/-- Witness for C8: an unknown id cleans up successfully, and an id whose
first cleanup succeeded (in a git world where every command succeeds)
cleans up successfully again. -/
theorem C8_cleanup_idempotent_witness :
    (cleanup_worktree { active_worktrees := [] } "w" gitOK).1 = true ∧
      (cleanup_worktree (cleanup_worktree c8_state "w" gitOK).2 "w" gitOK).1 = true :=
  ⟨C8_cleanup_idempotent.1 { active_worktrees := [] } "w" gitOK (by decide),
   C8_cleanup_idempotent.2 c8_state "w" gitOK gitOK (by decide)⟩

/-! ### ResourceManager table lemmas -/

theorem holder_count_filter_le_one (rid : String) :
    ∀ (l : List (String × ResourceAllocation)),
      (l.map Prod.fst).Nodup → (∀ p ∈ l, p.2.resource_id = p.1) →
      (l.filter (fun p => p.2.resource_id == rid)).length ≤ 1 := by
  intro l
  induction l with
  | nil => intro _ _; simp
  | cons p l ih =>
    intro hnd hinv
    simp only [List.map_cons, List.nodup_cons] at hnd
    by_cases hp : p.2.resource_id == rid
    · have hkey : p.1 = rid := by
        have h1 := hinv p (List.mem_cons_self p l)
        have h2 : p.2.resource_id = rid := by simpa using hp
        rw [← h1, h2]
      rw [List.filter_cons_of_pos (by simpa using hp)]
      have hnil : l.filter (fun q => q.2.resource_id == rid) = [] := by
        rw [List.filter_eq_nil_iff]
        intro q hq hqp
        have hq1 : q.2.resource_id = rid := by simpa using hqp
        have hq2 := hinv q (List.mem_cons_of_mem _ hq)
        have hqe : q.1 = p.1 := by rw [← hq2, hq1, hkey]
        exact hnd.1 (hqe ▸ List.mem_map.mpr ⟨q, hq, rfl⟩)
      rw [hnil]
      simp
    · rw [List.filter_cons_of_neg (by simpa using hp)]
      exact ih hnd.2 (fun q hq => hinv q (List.mem_cons_of_mem _ hq))

theorem holder_count_le_one (s : RMState) (h : rm_table_ok s) (rid : String) :
    holder_count s rid ≤ 1 :=
  holder_count_filter_le_one rid s.allocated_resources h.2 h.1

theorem holder_count_eq_one_of_lookup (s : RMState) (h : rm_table_ok s) (rid : String)
    (a : ResourceAllocation) (hl : dictLookup s.allocated_resources rid = some a) :
    holder_count s rid = 1 := by
  have hle := holder_count_le_one s h rid
  have hfind : ∃ p ∈ s.allocated_resources, (p.1 == rid) = true := by
    unfold dictLookup at hl
    cases hf : s.allocated_resources.find? (fun p => p.1 == rid) with
    | none => rw [hf] at hl; cases hl
    | some p =>
      have hx := List.find?_some hf
      exact ⟨p, List.mem_of_find?_eq_some hf, hx⟩
  rcases hfind with ⟨p, hp, hpk⟩
  have hge : 1 ≤ holder_count s rid := by
    have hmem : p ∈ s.allocated_resources.filter (fun q => q.2.resource_id == rid) := by
      refine List.mem_filter.mpr ⟨hp, ?_⟩
      have h1 := h.1 p hp
      have h2 : p.1 = rid := by simpa using hpk
      simp [h1, h2]
    have := List.length_pos_of_mem hmem  -- hmm name?
    exact this
  omega

theorem rm_table_ok_allocate (s : RMState) (rid wsid : String) (rt : ResourceType)
    (rn : String) (ex : Bool) (h : rm_table_ok s) :
    rm_table_ok (allocate_resource s rid wsid rt rn ex).2 := by
  unfold allocate_resource
  by_cases hav : is_resource_available s rid wsid ex
  · simp only [hav, if_true]
    constructor
    · intro p hp
      rcases mem_dictInsert hp with rfl | hp'
      · rfl
      · exact h.1 p hp'
    · exact keys_dictInsert_nodup rid _ h.2
  · simp only [hav, if_false]
    exact h

theorem rm_table_ok_release (s : RMState) (rid wsid : String) (h : rm_table_ok s) :
    rm_table_ok (release_resource s rid wsid).2 := by
  unfold release_resource
  cases hl : dictLookup s.allocated_resources rid with
  | none => exact h
  | some a =>
    by_cases hw : a.workstream_id == wsid
    · simp only [hw, if_true]
      unfold process_waiting_workstreams
      have hok : rm_table_ok { s with allocated_resources := dictErase s.allocated_resources rid } :=
        ⟨fun p hp => h.1 p (mem_dictErase hp), keys_dictErase_nodup rid h.2⟩
      cases dictLookup { s with allocated_resources := dictErase s.allocated_resources rid }.waiting_workstreams rid with
      | none => exact hok
      | some _ => exact hok
    · simp only [hw, Bool.false_eq_true, if_false]
      exact h

/-- C9: the ResourceManager's allocation table keys each resource to at
most one record: a second successful shared allocate of a resource
replaces the first holder's record, release by the displaced first holder
then returns False, and (via the table invariant, preserved by allocate
and release from the empty initial state) the recorded holder count of any
resource never exceeds 1. -/
theorem is_resource_available_shared (s : RMState) (rid wsid : String)
    (a : ResourceAllocation) (hl : dictLookup s.allocated_resources rid = some a)
    (hex : a.is_exclusive = false)
    (hcap : dictLookup s.resource_capacity rid = none ∨
      ∃ c, dictLookup s.resource_capacity rid = some c ∧ ¬ (holder_count s rid ≥ c)) :
    is_resource_available s rid wsid false = true := by
  unfold is_resource_available
  rw [hl]
  simp only [hex, Bool.false_eq_true, if_false]
  rcases hcap with hnone | hc
  · rw [hnone]
  · rcases hc with ⟨c, hcs, hge⟩
    rw [hcs]
    simp [hge]

theorem C9_allocation_table_single_holder :
    (∀ s rid wsid rt rn ex, rm_table_ok s →
        rm_table_ok (allocate_resource s rid wsid rt rn ex).2) ∧
      (∀ s rid wsid, rm_table_ok s → rm_table_ok (release_resource s rid wsid).2) ∧
      (∀ s rid, rm_table_ok s → holder_count s rid ≤ 1) ∧
      (∀ s rid w1 w2 rt rn, rm_table_ok s → w1 ≠ w2 →
        (allocate_resource s rid w1 rt rn false).1 = true →
        (dictLookup s.resource_capacity rid = none ∨
          ∃ c, dictLookup s.resource_capacity rid = some c ∧ 2 ≤ c) →
        ((allocate_resource (allocate_resource s rid w1 rt rn false).2 rid w2 rt rn
            false).1 = true ∧
          dictLookup (allocate_resource (allocate_resource s rid w1 rt rn false).2
              rid w2 rt rn false).2.allocated_resources rid =
            some (mkAllocation rid rt rn w2 false) ∧
          (release_resource (allocate_resource (allocate_resource s rid w1 rt rn
              false).2 rid w2 rt rn false).2 rid w1).1 = false)) := by
  refine ⟨rm_table_ok_allocate, rm_table_ok_release,
    fun s rid h => holder_count_le_one s h rid, ?_⟩
  intro s rid w1 w2 rt rn hok hne h1 hcap
  have hav1 : is_resource_available s rid w1 false = true := by
    by_contra hav
    simp only [Bool.not_eq_true] at hav
    simp [allocate_resource, hav] at h1
  have hs1 : (allocate_resource s rid w1 rt rn false).2
      = { s with allocated_resources :=
            dictInsert s.allocated_resources rid (mkAllocation rid rt rn w1 false) } := by
    simp [allocate_resource, hav1, mkAllocation]
  have hok1 : rm_table_ok (allocate_resource s rid w1 rt rn false).2 :=
    rm_table_ok_allocate s rid w1 rt rn false hok
  have hl1 : dictLookup (allocate_resource s rid w1 rt rn false).2.allocated_resources
      rid = some (mkAllocation rid rt rn w1 false) := by
    rw [hs1]
    exact dictLookup_dictInsert_self _ _ _
  have hc1 : holder_count (allocate_resource s rid w1 rt rn false).2 rid = 1 :=
    holder_count_eq_one_of_lookup _ hok1 rid _ hl1
  have hcapeq : (allocate_resource s rid w1 rt rn false).2.resource_capacity
      = s.resource_capacity := by rw [hs1]
  generalize hX : (allocate_resource s rid w1 rt rn false).2 = X at hok1 hl1 hc1 hcapeq ⊢
  have hav2 : is_resource_available X rid w2 false = true := by
    apply is_resource_available_shared _ _ _ _ hl1 rfl
    rcases hcap with hnone | hc
    · left
      rw [hcapeq]
      exact hnone
    · rcases hc with ⟨c, hcs, hc2⟩
      right
      refine ⟨c, by rw [hcapeq]; exact hcs, by rw [hc1]; omega⟩
  have hs2a : (allocate_resource X rid w2 rt rn false).2.allocated_resources
      = dictInsert X.allocated_resources rid (mkAllocation rid rt rn w2 false) := by
    simp [allocate_resource, hav2, mkAllocation]
  have hl2 : dictLookup (allocate_resource X rid w2 rt rn false).2.allocated_resources
      rid = some (mkAllocation rid rt rn w2 false) := by
    rw [hs2a]
    exact dictLookup_dictInsert_self _ _ _
  refine ⟨by simp [allocate_resource, hav2], hl2, ?_⟩
  have hwne : ((mkAllocation rid rt rn w2 false).workstream_id == w1) = false := by
    simpa [mkAllocation] using fun e => hne e.symm
  simp [release_resource, hl2, hwne]

/-- Witness for C9: from the empty ResourceManager, two shared allocations
of resource r by w1 then w2, then a release attempt by w1. -/
theorem C9_allocation_table_single_holder_witness :
    (release_resource (allocate_resource (allocate_resource ({} : RMState) "r" "w1"
        .FILE "db" false).2 "r" "w2" .FILE "db" false).2 "r" "w1").1 = false ∧
      dictLookup (allocate_resource (allocate_resource ({} : RMState) "r" "w1"
        .FILE "db" false).2 "r" "w2" .FILE "db" false).2.allocated_resources "r" =
        some (mkAllocation "r" .FILE "db" "w2" false) ∧
      holder_count (allocate_resource (allocate_resource ({} : RMState) "r" "w1"
        .FILE "db" false).2 "r" "w2" .FILE "db" false).2 "r" ≤ 1 := by
  have h := C9_allocation_table_single_holder
  have hok0 : rm_table_ok ({} : RMState) := by
    constructor
    · intro p hp
      cases hp
    · simp
  have hsc := h.2.2.2 {} "r" "w1" "w2" .FILE "db" hok0 (by decide) rfl (Or.inl rfl)
  refine ⟨hsc.2.2, hsc.2.1, ?_⟩
  have hok1 := h.1 {} "r" "w1" .FILE "db" false hok0
  have hok2 := h.1 _ "r" "w2" .FILE "db" false hok1
  exact h.2.2.1 _ "r" hok2

/-! ### Conflict-identification lemmas -/

theorem foldl_preserves {α β : Type} (P : α → Prop) (f : α → β → α)
    (hs : ∀ a b, P a → P (f a b)) : ∀ (l : List β) (a : α), P a → P (l.foldl f a) := by
  intro l
  induction l with
  | nil => intro a h; exact h
  | cons b l ih => intro a h; exact ih (f a b) (hs a b h)

theorem group_resource_usage_keys_nodup (ws : List Workstream) :
    ((group_resource_usage ws).map Prod.fst).Nodup := by
  unfold group_resource_usage
  refine foldl_preserves
    (fun acc : List (String × List (String × Bool)) => (acc.map Prod.fst).Nodup)
    _ ?_ ws [] ?_
  · intro acc w hacc
    refine foldl_preserves
      (fun acc : List (String × List (String × Bool)) => (acc.map Prod.fst).Nodup)
      _ ?_ w.required_resources acc hacc
    intro acc2 req hacc2
    cases hlk : dictLookup acc2 req.resource_id with
    | none =>
      simp only [hlk]
      rw [List.map_append, List.nodup_append]
      refine ⟨hacc2, by simp, ?_⟩
      intro x hx hx2
      simp only [List.map_cons, List.map_nil, List.mem_cons, List.not_mem_nil,
        or_false] at hx2
      subst hx2
      rcases List.mem_map.mp hx with ⟨p, hp, hpx⟩
      exact (dictLookup_eq_none_iff _ _).mp hlk p hp hpx
    | some l =>
      simp only [hlk]
      exact keys_dictInsert_nodup _ _ hacc2
  · simp

theorem conflicts_for_group_resource_id (ws : List Workstream) (rid : String)
    (us : List (String × Bool)) :
    ∀ c ∈ conflicts_for_group ws rid us, c.resource_id = rid := by
  intro c hc
  simp only [conflicts_for_group] at hc
  split at hc
  · split at hc
    · rcases List.mem_singleton.mp hc with rfl
      rfl
    · split at hc
      · rcases List.mem_singleton.mp hc with rfl
        rfl
      · cases hc
  · cases hc

theorem foldl_append_flatten {α β : Type} (f : β → List α) :
    ∀ (l : List β) (acc : List α),
      l.foldl (fun a b => a ++ f b) acc = acc ++ (l.map f).flatten := by
  intro l
  induction l with
  | nil => intro acc; simp
  | cons b l ih => intro acc; simp [ih, List.append_assoc]

theorem identify_filter_eq (ws : List Workstream) (r : String) (us : List (String × Bool)) :
    ∀ (l : List (String × List (String × Bool))),
      (l.map Prod.fst).Nodup → dictLookup l r = some us →
      ((l.foldl (fun acc p => acc ++ conflicts_for_group ws p.1 p.2) []).filter
        (fun c => c.resource_id == r)) = conflicts_for_group ws r us := by
  intro l
  induction l with
  | nil => intro _ h; cases h
  | cons p l ih =>
    intro hnd hl
    simp only [List.map_cons, List.nodup_cons] at hnd
    rw [foldl_append_flatten]
    simp only [List.nil_append, List.map_cons, List.flatten_cons, List.filter_append]
    rw [dictLookup_cons] at hl
    by_cases hp : p.1 == r
    · have hpr : p.1 = r := by simpa using hp
      rw [if_pos hp] at hl
      injection hl with hl
      subst hl
      have h1 : (conflicts_for_group ws p.1 p.2).filter (fun c => c.resource_id == r)
          = conflicts_for_group ws p.1 p.2 := by
        rw [List.filter_eq_self]
        intro c hc
        have := conflicts_for_group_resource_id ws p.1 p.2 c hc
        simp [this, hpr]
      have h2 : ((l.map (fun q => conflicts_for_group ws q.1 q.2)).flatten).filter
          (fun c => c.resource_id == r) = [] := by
        rw [List.filter_eq_nil_iff]
        intro c hc hcr
        rcases List.mem_flatten.mp hc with ⟨g, hg, hcg⟩
        rcases List.mem_map.mp hg with ⟨q, hq, rfl⟩
        have hcq := conflicts_for_group_resource_id ws q.1 q.2 c hcg
        have : q.1 = r := by
          have := (by simpa using hcr : c.resource_id = r)
          rw [← hcq]
          exact this
        exact hnd.1 (by rw [← hpr] at this; exact this ▸ List.mem_map.mpr ⟨q, hq, rfl⟩)
      rw [h1, h2, List.append_nil, hpr]
    · rw [if_neg (by simpa using (by simpa using hp : p.1 ≠ r))] at hl
      have h1 : (conflicts_for_group ws p.1 p.2).filter (fun c => c.resource_id == r)
          = [] := by
        rw [List.filter_eq_nil_iff]
        intro c hc hcr
        have hcq := conflicts_for_group_resource_id ws p.1 p.2 c hc
        have hpr : p.1 = r := by rw [← hcq]; simpa using hcr
        exact absurd hpr (by simpa using hp)
      rw [h1, List.nil_append]
      have := ih hnd.2 hl
      rw [foldl_append_flatten] at this
      simpa using this

/-- C7 amended: whenever the requesters of a resource are exactly two items
(at least one exclusive), conflict identification produces exactly one
conflict entry for that resource, and that entry's conflicting-items list
is exactly the pair. -/
theorem C7_two_requester_conflict_amended :
    ∀ (ws : List Workstream) (r x y : String) (ex ey : Bool),
      dictLookup (group_resource_usage ws) r = some [(x, ex), (y, ey)] →
      (ex || ey) = true →
      ((identify_resource_conflicts ws).filter (fun c => c.resource_id == r)).map
        (fun c => c.conflicting_workstreams) = [[x, y]] := by
  intro ws r x y ex ey hl hex
  have hnd := group_resource_usage_keys_nodup ws
  have hfe := identify_filter_eq ws r [(x, ex), (y, ey)] (group_resource_usage ws) hnd hl
  unfold identify_resource_conflicts
  rw [hfe]
  cases ex <;> cases ey <;> simp_all [conflicts_for_group]

/-- Witness for the amended C7: X (exclusive) and Z (shared) are the only
requesters of resource r. -/
theorem C7_two_requester_conflict_amended_witness :
    ((identify_resource_conflicts [c7_X, c7_Z]).filter
      (fun c => c.resource_id == "r")).map (fun c => c.conflicting_workstreams)
      = [["X", "Z"]] :=
  C7_two_requester_conflict_amended [c7_X, c7_Z] "r" "X" "Z" true false (by decide) rfl

/-! ### Cycle-detector lemmas: projection and monotonicity -/

theorem dfsVisitI_proj (g : Graph) :
    ∀ (fuel : Nat) (node : String) (path : List String) (s : DfsIState),
      dfsVisit g fuel node path ⟨s.visited, s.cycles⟩
        = ⟨(dfsVisitI g fuel node path s).visited, (dfsVisitI g fuel node path s).cycles⟩ := by
  intro fuel
  induction fuel with
  | zero => intro node path s; rfl
  | succ fuel ih =>
    intro node path s
    by_cases hp : node ∈ path
    · simp [dfsVisit, dfsVisitI, hp]
    · by_cases hv : node ∈ s.visited
      · simp [dfsVisit, dfsVisitI, hp, hv]
      · simp only [dfsVisit, dfsVisitI, hp, hv, if_false, if_neg]
        have aux : ∀ (ns : List String) (t : DfsIState),
            ns.foldl (fun acc nbr => dfsVisit g fuel nbr (path ++ [node]) acc)
              ⟨t.visited, t.cycles⟩
            = ⟨(ns.foldl (fun acc nbr => dfsVisitI g fuel nbr (path ++ [node]) acc) t).visited,
               (ns.foldl (fun acc nbr => dfsVisitI g fuel nbr (path ++ [node]) acc) t).cycles⟩ := by
          intro ns
          induction ns with
          | nil => intro t; rfl
          | cons b ns ihn =>
            intro t
            simp only [List.foldl_cons]
            rw [ih b (path ++ [node]) t, ihn]
        exact aux (adj g node) ⟨s.visited ++ [node], s.cycles, s.fin⟩

theorem detect_cycles_eq_detectI (g : Graph) : detect_cycles g = (detectI g).cycles := by
  unfold detect_cycles detectI
  have aux : ∀ (ns : List String) (t : DfsIState),
      (ns.foldl (fun s node => if node ∈ s.visited then s
          else dfsVisit g ((nodesOf g).length + 1) node [] s) ⟨t.visited, t.cycles⟩)
      = ⟨(ns.foldl (fun s node => if node ∈ s.visited then s
            else dfsVisitI g ((nodesOf g).length + 1) node [] s) t).visited,
         (ns.foldl (fun s node => if node ∈ s.visited then s
            else dfsVisitI g ((nodesOf g).length + 1) node [] s) t).cycles⟩ := by
    intro ns
    induction ns with
    | nil => intro t; rfl
    | cons b ns ihn =>
      intro t
      simp only [List.foldl_cons]
      by_cases hv : b ∈ t.visited
      · simp only [hv, if_true]
        exact ihn t
      · simp only [hv, if_false]
        rw [dfsVisitI_proj g _ b [] t, ihn]
  have h := aux (keysOf g) ⟨[], [], []⟩
  simp only at h ⊢
  rw [h]

theorem dfsVisitI_mono (g : Graph) :
    ∀ (fuel : Nat) (node : String) (path : List String) (s : DfsIState),
      (∃ t, (dfsVisitI g fuel node path s).visited = s.visited ++ t) ∧
        (∃ t, (dfsVisitI g fuel node path s).cycles = s.cycles ++ t) ∧
        (∃ t, (dfsVisitI g fuel node path s).fin = s.fin ++ t) := by
  intro fuel
  induction fuel with
  | zero =>
    intro node path s
    exact ⟨⟨[], by simp [dfsVisitI]⟩, ⟨[], by simp [dfsVisitI]⟩, ⟨[], by simp [dfsVisitI]⟩⟩
  | succ fuel ih =>
    intro node path s
    by_cases hp : node ∈ path
    · refine ⟨⟨[], by simp [dfsVisitI, hp]⟩,
        ⟨[path.drop (path.indexOf node) ++ [node]], by simp [dfsVisitI, hp]⟩,
        ⟨[], by simp [dfsVisitI, hp]⟩⟩
    · by_cases hv : node ∈ s.visited
      · refine ⟨⟨[], by simp [dfsVisitI, hp, hv]⟩, ⟨[], by simp [dfsVisitI, hp, hv]⟩,
          ⟨[], by simp [dfsVisitI, hp, hv]⟩⟩
      · have aux : ∀ (ns : List String) (t : DfsIState),
            (∃ u, (ns.foldl (fun acc nbr => dfsVisitI g fuel nbr (path ++ [node]) acc)
                t).visited = t.visited ++ u) ∧
            (∃ u, (ns.foldl (fun acc nbr => dfsVisitI g fuel nbr (path ++ [node]) acc)
                t).cycles = t.cycles ++ u) ∧
            (∃ u, (ns.foldl (fun acc nbr => dfsVisitI g fuel nbr (path ++ [node]) acc)
                t).fin = t.fin ++ u) := by
          intro ns
          induction ns with
          | nil => intro t; exact ⟨⟨[], by simp⟩, ⟨[], by simp⟩, ⟨[], by simp⟩⟩
          | cons b ns ihn =>
            intro t
            simp only [List.foldl_cons]
            obtain ⟨⟨u1, h1⟩, ⟨u2, h2⟩, ⟨u3, h3⟩⟩ := ih b (path ++ [node]) t
            obtain ⟨⟨v1, g1⟩, ⟨v2, g2⟩, ⟨v3, g3⟩⟩ :=
              ihn (dfsVisitI g fuel b (path ++ [node]) t)
            exact ⟨⟨u1 ++ v1, by rw [g1, h1, List.append_assoc]⟩,
              ⟨u2 ++ v2, by rw [g2, h2, List.append_assoc]⟩,
              ⟨u3 ++ v3, by rw [g3, h3, List.append_assoc]⟩⟩
        simp only [dfsVisitI, hp, hv, if_false, if_neg]
        obtain ⟨⟨u1, h1⟩, ⟨u2, h2⟩, ⟨u3, h3⟩⟩ :=
          aux (adj g node) ⟨s.visited ++ [node], s.cycles, s.fin⟩
        refine ⟨⟨[node] ++ u1, ?_⟩, ⟨u2, ?_⟩, ⟨u3 ++ [node], ?_⟩⟩
        · simp only [h1, List.append_assoc]
        · simp only [h2]
        · simp only [h3, List.append_assoc]

/-! ### Counting and closure lemmas -/

theorem filter_length_mono {α : Type} (p q : α → Bool)
    (hpq : ∀ x, q x = true → p x = true) :
    ∀ (l : List α), (l.filter q).length ≤ (l.filter p).length := by
  intro l
  induction l with
  | nil => simp
  | cons a l ih =>
    by_cases hq : q a = true
    · rw [List.filter_cons_of_pos hq, List.filter_cons_of_pos (hpq a hq)]
      simpa using ih
    · rw [List.filter_cons_of_neg (by simpa using hq)]
      by_cases hp : p a = true
      · rw [List.filter_cons_of_pos hp]
        exact Nat.le_succ_of_le ih
      · rw [List.filter_cons_of_neg (by simpa using hp)]
        exact ih

theorem filter_length_strict {α : Type} (p q : α → Bool)
    (hpq : ∀ x, q x = true → p x = true) :
    ∀ (l : List α) (a : α), a ∈ l → p a = true → q a = false →
      (l.filter q).length < (l.filter p).length := by
  intro l
  induction l with
  | nil => intro a h; cases h
  | cons b l ih =>
    intro a ha hpa hqa
    rcases List.mem_cons.mp ha with rfl | ha'
    · rw [List.filter_cons_of_neg (by simp [hqa]), List.filter_cons_of_pos hpa]
      exact Nat.lt_succ_of_le (filter_length_mono p q hpq l)
    · by_cases hqb : q b = true
      · rw [List.filter_cons_of_pos hqb, List.filter_cons_of_pos (hpq b hqb)]
        simpa using ih a ha' hpa hqa
      · rw [List.filter_cons_of_neg (by simpa using hqb)]
        by_cases hpb : p b = true
        · rw [List.filter_cons_of_pos hpb]
          exact Nat.lt_succ_of_le (Nat.le_of_lt (ih a ha' hpa hqa))
        · rw [List.filter_cons_of_neg (by simpa using hpb)]
          exact ih a ha' hpa hqa

theorem not_contains_iff {V : List String} {x : String} :
    (!V.contains x) = true ↔ x ∉ V := by
  rw [Bool.not_eq_true', ← Bool.not_eq_true]
  exact not_congr List.elem_iff

theorem notVisCount_le (g : Graph) {V V2 : List String} (h : ∀ x, x ∈ V → x ∈ V2) :
    notVisCount g V2 ≤ notVisCount g V := by
  apply filter_length_mono
  intro x hx
  rw [not_contains_iff] at hx ⊢
  exact fun hm => hx (h x hm)

theorem notVisCount_lt (g : Graph) {V : List String} {node : String}
    (hn : node ∈ nodesOf g) (hv : node ∉ V) :
    notVisCount g (V ++ [node]) < notVisCount g V := by
  refine filter_length_strict _ _ ?_ (nodesOf g) node hn ?_ ?_
  · intro x hx
    rw [not_contains_iff] at hx ⊢
    exact fun hm => hx (List.mem_append.mpr (Or.inl hm))
  · rw [not_contains_iff]
    exact hv
  · rw [← Bool.not_eq_true, not_contains_iff]
    intro hne
    exact hne (List.mem_append.mpr (Or.inr (List.mem_singleton.mpr rfl)))

theorem notVisCount_le_card (g : Graph) (V : List String) :
    notVisCount g V ≤ (nodesOf g).length :=
  List.length_filter_le _ _

theorem mem_keys_of_adj (g : Graph) {a b : String} (h : b ∈ adj g a) : a ∈ keysOf g := by
  unfold adj at h
  cases hl : dictLookup g a with
  | none => rw [hl] at h; cases h
  | some ts =>
    unfold dictLookup at hl
    cases hf : g.find? (fun p => p.1 == a) with
    | none => rw [hf] at hl; cases hl
    | some p =>
      have hm := List.mem_of_find?_eq_some hf
      have hk := List.find?_some hf
      have : p.1 = a := by simpa using hk
      exact this ▸ List.mem_map.mpr ⟨p, hm, rfl⟩

theorem adj_subset_nodesOf (g : Graph) {a b : String} (h : b ∈ adj g a) :
    b ∈ nodesOf g := by
  unfold adj at h
  cases hl : dictLookup g a with
  | none => rw [hl] at h; cases h
  | some ts =>
    rw [hl] at h
    unfold dictLookup at hl
    cases hf : g.find? (fun p => p.1 == a) with
    | none => rw [hf] at hl; cases hl
    | some p =>
      rw [hf] at hl
      have hm := List.mem_of_find?_eq_some hf
      have hts : p.2 = ts := by simpa using hl
      unfold nodesOf
      rw [List.mem_dedup, List.mem_append]
      refine Or.inr (List.mem_flatten.mpr ⟨ts, ?_, h⟩)
      exact List.mem_map.mpr ⟨p, hm, hts⟩

theorem keys_subset_nodesOf (g : Graph) {k : String} (h : k ∈ keysOf g) :
    k ∈ nodesOf g := by
  unfold nodesOf
  rw [List.mem_dedup, List.mem_append]
  exact Or.inl h

theorem goodFin_append (g : Graph) (F : List String) (node : String)
    (hF : goodFin g F) (hadj : ∀ b ∈ adj g node, b ∈ F) :
    goodFin g (F ++ [node]) := by
  intro i h b hb
  rw [List.length_append, List.length_singleton] at h
  by_cases hi : i < F.length
  · rw [List.get_append _ hi] at hb
    rw [List.take_append_of_le_length (Nat.le_of_lt hi)]
    exact hF i hi b hb
  · have hie : i = F.length := by omega
    subst hie
    have hget : (F ++ [node]).get ⟨F.length, by rw [List.length_append]; simp⟩ = node := by
      rw [List.get_eq_getElem, List.getElem_append_right (Nat.le_refl _)]
      simp
    rw [hget] at hb
    rw [List.take_append_of_le_length (Nat.le_refl _), List.take_length]
    exact hadj b hb

theorem dfsI_fold_mono (g : Graph) (fuel : Nat) (pathx : List String) :
    ∀ (ns : List String) (t : DfsIState),
      (∃ u, (ns.foldl (fun acc nbr => dfsVisitI g fuel nbr pathx acc) t).visited
          = t.visited ++ u) ∧
        (∃ u, (ns.foldl (fun acc nbr => dfsVisitI g fuel nbr pathx acc) t).cycles
          = t.cycles ++ u) ∧
        (∃ u, (ns.foldl (fun acc nbr => dfsVisitI g fuel nbr pathx acc) t).fin
          = t.fin ++ u) := by
  intro ns
  induction ns with
  | nil => intro t; exact ⟨⟨[], by simp⟩, ⟨[], by simp⟩, ⟨[], by simp⟩⟩
  | cons b ns ihn =>
    intro t
    simp only [List.foldl_cons]
    obtain ⟨⟨u1, h1⟩, ⟨u2, h2⟩, ⟨u3, h3⟩⟩ := dfsVisitI_mono g fuel b pathx t
    obtain ⟨⟨v1, g1⟩, ⟨v2, g2⟩, ⟨v3, g3⟩⟩ := ihn (dfsVisitI g fuel b pathx t)
    exact ⟨⟨u1 ++ v1, by rw [g1, h1, List.append_assoc]⟩,
      ⟨u2 ++ v2, by rw [g2, h2, List.append_assoc]⟩,
      ⟨u3 ++ v3, by rw [g3, h3, List.append_assoc]⟩⟩

theorem dfsI_spec (g : Graph) :
    ∀ (fuel : Nat) (node : String) (path : List String) (s : DfsIState),
      notVisCount g s.visited < fuel →
      node ∈ nodesOf g →
      (∀ x, x ∈ s.visited ↔ (x ∈ s.fin ∨ x ∈ path)) →
      goodFin g s.fin →
      ((dfsVisitI g fuel node path s).cycles = s.cycles →
        (∀ x, x ∈ (dfsVisitI g fuel node path s).visited ↔
          (x ∈ (dfsVisitI g fuel node path s).fin ∨ x ∈ path)) ∧
          goodFin g (dfsVisitI g fuel node path s).fin ∧
          node ∈ (dfsVisitI g fuel node path s).fin) := by
  intro fuel
  induction fuel with
  | zero =>
    intro node path s hcount
    omega
  | succ fuel ih =>
    intro node path s hcount hnode hvfp hgood
    by_cases hp : node ∈ path
    · intro hcy
      exfalso
      have heq : s.cycles ++ [path.drop (path.indexOf node) ++ [node]] = s.cycles := by
        simpa [dfsVisitI, hp] using hcy
      have hlen := congrArg List.length heq
      simp at hlen
    · by_cases hv : node ∈ s.visited
      · intro _
        have heq : dfsVisitI g (fuel + 1) node path s = s := by
          simp [dfsVisitI, hp, hv]
        rw [heq]
        refine ⟨hvfp, hgood, ?_⟩
        rcases (hvfp node).mp hv with hf | hpth
        · exact hf
        · exact absurd hpth hp
      · have aux : ∀ (ns : List String), (∀ b ∈ ns, b ∈ nodesOf g) →
            ∀ (t : DfsIState),
            notVisCount g t.visited < fuel →
            (∀ x, x ∈ t.visited ↔ (x ∈ t.fin ∨ x ∈ path ++ [node])) →
            goodFin g t.fin →
            ((ns.foldl (fun acc nbr => dfsVisitI g fuel nbr (path ++ [node]) acc)
                t).cycles = t.cycles →
              (∀ x, x ∈ (ns.foldl (fun acc nbr => dfsVisitI g fuel nbr (path ++ [node])
                  acc) t).visited ↔
                (x ∈ (ns.foldl (fun acc nbr => dfsVisitI g fuel nbr (path ++ [node])
                  acc) t).fin ∨ x ∈ path ++ [node])) ∧
                goodFin g (ns.foldl (fun acc nbr => dfsVisitI g fuel nbr (path ++ [node])
                  acc) t).fin ∧
                (∀ b ∈ ns, b ∈ (ns.foldl (fun acc nbr => dfsVisitI g fuel nbr
                  (path ++ [node]) acc) t).fin) ∧
                notVisCount g (ns.foldl (fun acc nbr => dfsVisitI g fuel nbr
                  (path ++ [node]) acc) t).visited < fuel) := by
          intro ns
          induction ns with
          | nil =>
            intro _ t hc hvt hgt _
            exact ⟨hvt, hgt, (by intro b hb; cases hb), hc⟩
          | cons b ns ihn =>
            intro hbs t hc hvt hgt hcy
            simp only [List.foldl_cons] at hcy ⊢
            obtain ⟨_, ⟨u, hu⟩, _⟩ := dfsVisitI_mono g fuel b (path ++ [node]) t
            obtain ⟨_, ⟨v, hvv⟩, _⟩ :=
              dfsI_fold_mono g fuel (path ++ [node]) ns
                (dfsVisitI g fuel b (path ++ [node]) t)
            have huv : t.cycles ++ (u ++ v) = t.cycles ++ [] := by
              rw [← List.append_assoc, ← hu, ← hvv, hcy, List.append_nil]
            have huv2 : u ++ v = [] := List.append_cancel_left huv
            have hu0 : u = [] := by
              cases u with
              | nil => rfl
              | cons a u => simp at huv2
            have hv0 : v = [] := by
              rw [hu0] at huv2
              simpa using huv2
            have hrcy : (dfsVisitI g fuel b (path ++ [node]) t).cycles = t.cycles := by
              rw [hu, hu0, List.append_nil]
            have hsub := ih b (path ++ [node]) t hc (hbs b (List.mem_cons_self b ns))
              hvt hgt hrcy
            obtain ⟨hvr, hgoodr, hbfin⟩ := hsub
            have hcr : notVisCount g (dfsVisitI g fuel b (path ++ [node]) t).visited
                < fuel := by
              obtain ⟨⟨u1, h1⟩, _, _⟩ := dfsVisitI_mono g fuel b (path ++ [node]) t
              have hle := @notVisCount_le g t.visited
                ((dfsVisitI g fuel b (path ++ [node]) t).visited)
                (by intro x hx; rw [h1]; exact List.mem_append.mpr (Or.inl hx))
              omega
            have hfold : (ns.foldl (fun acc nbr => dfsVisitI g fuel nbr (path ++ [node])
                acc) (dfsVisitI g fuel b (path ++ [node]) t)).cycles
                = (dfsVisitI g fuel b (path ++ [node]) t).cycles := by
              rw [hvv, hv0, List.append_nil]
            have hrest := ihn (fun c hcm => hbs c (List.mem_cons_of_mem _ hcm))
              (dfsVisitI g fuel b (path ++ [node]) t) hcr hvr hgoodr hfold
            obtain ⟨hv2, hg2, hall2, hcnt2⟩ := hrest
            refine ⟨hv2, hg2, ?_, hcnt2⟩
            intro c hcm
            rcases List.mem_cons.mp hcm with rfl | hcm'
            · obtain ⟨_, _, ⟨w, hw⟩⟩ :=
                dfsI_fold_mono g fuel (path ++ [node]) ns
                  (dfsVisitI g fuel c (path ++ [node]) t)
              rw [hw]
              exact List.mem_append.mpr (Or.inl hbfin)
            · exact hall2 c hcm'
        intro hcy
        have hred : dfsVisitI g (fuel + 1) node path s
            = { (adj g node).foldl (fun acc nbr => dfsVisitI g fuel nbr (path ++ [node])
                  acc) ⟨s.visited ++ [node], s.cycles, s.fin⟩ with
                fin := ((adj g node).foldl (fun acc nbr => dfsVisitI g fuel nbr
                  (path ++ [node]) acc) ⟨s.visited ++ [node], s.cycles, s.fin⟩).fin
                  ++ [node] } := by
          simp [dfsVisitI, hp, hv]
        rw [hred] at hcy ⊢
        have hcy2 : ((adj g node).foldl (fun acc nbr => dfsVisitI g fuel nbr
            (path ++ [node]) acc) ⟨s.visited ++ [node], s.cycles, s.fin⟩).cycles
            = s.cycles := hcy
        have hc1 : notVisCount g (s.visited ++ [node]) < fuel := by
          have := notVisCount_lt g hnode hv
          omega
        have hvfp1 : ∀ x, x ∈ s.visited ++ [node] ↔
            (x ∈ s.fin ∨ x ∈ path ++ [node]) := by
          intro x
          have hx := hvfp x
          simp only [List.mem_append, List.mem_singleton]
          tauto
        have hmain := aux (adj g node) (fun b hb => adj_subset_nodesOf g hb)
          ⟨s.visited ++ [node], s.cycles, s.fin⟩ hc1 hvfp1 hgood hcy2
        obtain ⟨hv2, hg2, hall2, _⟩ := hmain
        refine ⟨?_, ?_, ?_⟩
        · intro x
          have hx := hv2 x
          simp only [List.mem_append, List.mem_singleton] at hx ⊢
          tauto
        · exact goodFin_append g _ node hg2 (fun b hb => hall2 b hb)
        · simp

theorem detectI_fold_mono (g : Graph) (fuel : Nat) :
    ∀ (ns : List String) (t : DfsIState),
      (∃ u, (ns.foldl (fun s node => if node ∈ s.visited then s
          else dfsVisitI g fuel node [] s) t).visited = t.visited ++ u) ∧
        (∃ u, (ns.foldl (fun s node => if node ∈ s.visited then s
          else dfsVisitI g fuel node [] s) t).cycles = t.cycles ++ u) ∧
        (∃ u, (ns.foldl (fun s node => if node ∈ s.visited then s
          else dfsVisitI g fuel node [] s) t).fin = t.fin ++ u) := by
  intro ns
  induction ns with
  | nil => intro t; exact ⟨⟨[], by simp⟩, ⟨[], by simp⟩, ⟨[], by simp⟩⟩
  | cons b ns ihn =>
    intro t
    simp only [List.foldl_cons]
    by_cases hv : b ∈ t.visited
    · simp only [hv, if_true]
      exact ihn t
    · simp only [hv, if_false]
      obtain ⟨⟨u1, h1⟩, ⟨u2, h2⟩, ⟨u3, h3⟩⟩ := dfsVisitI_mono g fuel b [] t
      obtain ⟨⟨v1, g1⟩, ⟨v2, g2⟩, ⟨v3, g3⟩⟩ := ihn (dfsVisitI g fuel b [] t)
      exact ⟨⟨u1 ++ v1, by rw [g1, h1, List.append_assoc]⟩,
        ⟨u2 ++ v2, by rw [g2, h2, List.append_assoc]⟩,
        ⟨u3 ++ v3, by rw [g3, h3, List.append_assoc]⟩⟩

theorem detectI_spec (g : Graph) (hnil : (detectI g).cycles = []) :
    (∀ x, x ∈ (detectI g).visited ↔ x ∈ (detectI g).fin) ∧
      goodFin g (detectI g).fin ∧ (∀ k ∈ keysOf g, k ∈ (detectI g).visited) := by
  have aux : ∀ (ns : List String), (∀ b ∈ ns, b ∈ nodesOf g) →
      ∀ (t : DfsIState),
      (∀ x, x ∈ t.visited ↔ x ∈ t.fin) → goodFin g t.fin →
      ((ns.foldl (fun s node => if node ∈ s.visited then s
          else dfsVisitI g ((nodesOf g).length + 1) node [] s) t).cycles = t.cycles →
        (∀ x, x ∈ (ns.foldl (fun s node => if node ∈ s.visited then s
            else dfsVisitI g ((nodesOf g).length + 1) node [] s) t).visited ↔
          x ∈ (ns.foldl (fun s node => if node ∈ s.visited then s
            else dfsVisitI g ((nodesOf g).length + 1) node [] s) t).fin) ∧
          goodFin g (ns.foldl (fun s node => if node ∈ s.visited then s
            else dfsVisitI g ((nodesOf g).length + 1) node [] s) t).fin ∧
          (∀ b ∈ ns, b ∈ (ns.foldl (fun s node => if node ∈ s.visited then s
            else dfsVisitI g ((nodesOf g).length + 1) node [] s) t).visited)) := by
    intro ns
    induction ns with
    | nil =>
      intro _ t hvt hgt _
      exact ⟨hvt, hgt, (by intro b hb; cases hb)⟩
    | cons b ns ihn =>
      intro hbs t hvt hgt hcy
      simp only [List.foldl_cons] at hcy ⊢
      by_cases hv : b ∈ t.visited
      · simp only [hv, if_true] at hcy ⊢
        have hrest := ihn (fun c hcm => hbs c (List.mem_cons_of_mem _ hcm)) t hvt hgt hcy
        obtain ⟨hv2, hg2, hall2⟩ := hrest
        refine ⟨hv2, hg2, ?_⟩
        intro c hcm
        rcases List.mem_cons.mp hcm with rfl | hcm'
        · obtain ⟨⟨u1, h1⟩, _, _⟩ :=
            detectI_fold_mono g ((nodesOf g).length + 1) ns t
          rw [h1]
          exact List.mem_append.mpr (Or.inl hv)
        · exact hall2 c hcm'
      · simp only [hv, if_false] at hcy ⊢
        obtain ⟨_, ⟨u, hu⟩, _⟩ := dfsVisitI_mono g ((nodesOf g).length + 1) b [] t
        obtain ⟨_, ⟨v, hvv⟩, _⟩ :=
          detectI_fold_mono g ((nodesOf g).length + 1) ns
            (dfsVisitI g ((nodesOf g).length + 1) b [] t)
        have huv : t.cycles ++ (u ++ v) = t.cycles ++ [] := by
          rw [← List.append_assoc, ← hu, ← hvv, hcy, List.append_nil]
        have huv2 : u ++ v = [] := List.append_cancel_left huv
        have hu0 : u = [] := by
          cases u with
          | nil => rfl
          | cons a u => simp at huv2
        have hv0 : v = [] := by
          rw [hu0] at huv2
          simpa using huv2
        have hrcy : (dfsVisitI g ((nodesOf g).length + 1) b [] t).cycles = t.cycles := by
          rw [hu, hu0, List.append_nil]
        have hcnt : notVisCount g t.visited < (nodesOf g).length + 1 :=
          Nat.lt_succ_of_le (notVisCount_le_card g t.visited)
        have hvt0 : ∀ x, x ∈ t.visited ↔ (x ∈ t.fin ∨ x ∈ ([] : List String)) := by
          intro x
          simpa using hvt x
        have hsub := dfsI_spec g ((nodesOf g).length + 1) b [] t hcnt
          (hbs b (List.mem_cons_self b ns)) hvt0 hgt hrcy
        obtain ⟨hvr, hgr, hbfin⟩ := hsub
        have hvr2 : ∀ x, x ∈ (dfsVisitI g ((nodesOf g).length + 1) b [] t).visited ↔
            x ∈ (dfsVisitI g ((nodesOf g).length + 1) b [] t).fin := by
          intro x
          simpa using hvr x
        have hfoldcy : (ns.foldl (fun s node => if node ∈ s.visited then s
            else dfsVisitI g ((nodesOf g).length + 1) node [] s)
            (dfsVisitI g ((nodesOf g).length + 1) b [] t)).cycles
            = (dfsVisitI g ((nodesOf g).length + 1) b [] t).cycles := by
          rw [hvv, hv0, List.append_nil]
        have hrest := ihn (fun c hcm => hbs c (List.mem_cons_of_mem _ hcm))
          (dfsVisitI g ((nodesOf g).length + 1) b [] t) hvr2 hgr hfoldcy
        obtain ⟨hv2, hg2, hall2⟩ := hrest
        refine ⟨hv2, hg2, ?_⟩
        intro c hcm
        rcases List.mem_cons.mp hcm with rfl | hcm'
        · obtain ⟨⟨u1, h1⟩, _, _⟩ :=
            detectI_fold_mono g ((nodesOf g).length + 1) ns
              (dfsVisitI g ((nodesOf g).length + 1) c [] t)
          rw [h1]
          refine List.mem_append.mpr (Or.inl ?_)
          exact (hvr2 c).mpr hbfin
        · exact hall2 c hcm'
  have hcy0 : ((keysOf g).foldl (fun s node => if node ∈ s.visited then s
      else dfsVisitI g ((nodesOf g).length + 1) node [] s)
      (⟨[], [], []⟩ : DfsIState)).cycles = (⟨[], [], []⟩ : DfsIState).cycles := by
    have h := hnil
    unfold detectI at h
    exact h
  have hres := aux (keysOf g) (fun b hb => keys_subset_nodesOf g hb) ⟨[], [], []⟩
    (by intro x; simp) (by intro i h b hb; simp at h) hcy0
  exact hres

theorem indexOf_lt_of_mem_take {α : Type} [DecidableEq α] :
    ∀ (l : List α) (i : Nat) (b : α), b ∈ l.take i → l.indexOf b < i := by
  intro l
  induction l with
  | nil => intro i b h; simp at h
  | cons a l ih =>
    intro i b h
    cases i with
    | zero => simp at h
    | succ i =>
      rw [List.take_succ_cons] at h
      by_cases hab : b = a
      · subst hab
        simp [List.indexOf_cons_self]
      · rcases List.mem_cons.mp h with rfl | hmem
        · exact absurd rfl hab
        · rw [List.indexOf_cons_ne _ (fun e => hab e.symm)]
          exact Nat.succ_lt_succ (ih i b hmem)

theorem edge_indexOf_lt (g : Graph) (F : List String) (hG : goodFin g F)
    (hK : ∀ k ∈ keysOf g, k ∈ F) {a b : String} (hab : gEdge g a b) :
    F.indexOf b < F.indexOf a := by
  have haF : a ∈ F := hK a (mem_keys_of_adj g hab)
  have hia : F.indexOf a < F.length := List.indexOf_lt_length.mpr haF
  have hget : F.get ⟨F.indexOf a, hia⟩ = a := List.indexOf_get hia
  have htake : b ∈ F.take (F.indexOf a) := by
    apply hG (F.indexOf a) hia
    rw [hget]
    exact hab
  exact indexOf_lt_of_mem_take F (F.indexOf a) b htake

theorem chain_indexOf_lt (g : Graph) (F : List String) (hG : goodFin g F)
    (hK : ∀ k ∈ keysOf g, k ∈ F) :
    ∀ (l : List String) (a b : String), List.Chain (gEdge g) a l →
      l.getLast? = some b → F.indexOf b < F.indexOf a := by
  intro l
  induction l with
  | nil => intro a b _ h; cases h
  | cons c l ih =>
    intro a b hch hlast
    rw [List.chain_cons] at hch
    cases l with
    | nil =>
      have hbc : b = c := by simpa using hlast.symm
      subst hbc
      exact edge_indexOf_lt g F hG hK hch.1
    | cons d l2 =>
      rw [List.getLast?_cons_cons] at hlast
      have h1 := ih c b hch.2 hlast
      have h2 := edge_indexOf_lt g F hG hK hch.1
      omega

theorem no_cycle_of_goodFin (g : Graph) (F : List String) (hG : goodFin g F)
    (hK : ∀ k ∈ keysOf g, k ∈ F) : ¬ hasCycle g := by
  rintro ⟨a, l, hch⟩
  have hlast : (l ++ [a]).getLast? = some a := by simp
  have := chain_indexOf_lt g F hG hK (l ++ [a]) a a hch hlast
  omega

/-- Completeness of _detect_cycles: a graph with a semantic cycle makes the
detector return a nonempty cycle list. -/
theorem detect_cycles_complete (g : Graph) (h : hasCycle g) : detect_cycles g ≠ [] := by
  intro hnil
  rw [detect_cycles_eq_detectI] at hnil
  obtain ⟨hvfp, hgood, hkeys⟩ := detectI_spec g hnil
  exact no_cycle_of_goodFin g (detectI g).fin hgood
    (fun k hk => (hvfp k).mp (hkeys k hk)) h

/-! ### Soundness of the cycle detector: every reported cycle is a closed
walk of the graph -/

theorem dfs_sound (g : Graph) :
    ∀ (fuel : Nat) (node : String) (path : List String) (s : DfsState),
      List.Chain' (gEdge g) (path ++ [node]) →
      (∀ c ∈ s.cycles, isClosedWalk g c) →
      ∀ c ∈ (dfsVisit g fuel node path s).cycles, isClosedWalk g c := by
  intro fuel
  induction fuel with
  | zero => intro node path s _ hs; simpa [dfsVisit] using hs
  | succ n ih =>
    intro node path s hch hs
    by_cases hp : node ∈ path
    · simp only [dfsVisit, if_pos hp]
      intro c hc
      rcases List.mem_append.mp hc with h1 | h1
      · exact hs c h1
      · have hcEq : c = path.drop (path.indexOf node) ++ [node] := by simpa using h1
        subst hcEq
        have hilt : path.indexOf node < path.length := List.indexOf_lt_length.mpr hp
        have hdrop : (path ++ [node]).drop (path.indexOf node)
            = path.drop (path.indexOf node) ++ [node] :=
          List.drop_append_of_le_length (le_of_lt hilt)
        refine ⟨?_, ?_, ?_⟩
        · simp only [List.length_append, List.length_drop, List.length_singleton]
          omega
        · have hc2 := List.Chain'.drop hch (path.indexOf node)
          rwa [hdrop] at hc2
        · have hgi : path[path.indexOf node]? = some node := by
            rw [List.getElem?_eq_getElem hilt]
            simp [List.indexOf_get]
          have hhead : (path.drop (path.indexOf node)).head? = some node := by
            rw [List.head?_drop]
            exact hgi
          have hh2 : (path.drop (path.indexOf node) ++ [node]).head? = some node := by
            cases hD : path.drop (path.indexOf node) with
            | nil => rw [hD] at hhead; simp at hhead
            | cons x xs => rw [hD] at hhead; simpa using hhead
          rw [hh2]
          simp
    · by_cases hv : node ∈ s.visited
      · simp only [dfsVisit, if_neg hp, if_pos hv]; exact hs
      · simp only [dfsVisit, if_neg hp, if_neg hv]
        have haux : ∀ (ns : List String), (∀ b ∈ ns, gEdge g node b) →
            ∀ (t : DfsState), (∀ c ∈ t.cycles, isClosedWalk g c) →
            ∀ c ∈ (ns.foldl (fun acc nbr => dfsVisit g n nbr (path ++ [node]) acc) t).cycles,
              isClosedWalk g c := by
          intro ns
          induction ns with
          | nil => intro _ t ht; simpa using ht
          | cons b bs ihn =>
            intro hed t ht
            simp only [List.foldl_cons]
            refine ihn (fun x hx => hed x (List.mem_cons_of_mem _ hx)) _ ?_
            refine ih b (path ++ [node]) t ?_ ht
            refine List.chain'_append.mpr ⟨hch, List.chain'_singleton b, ?_⟩
            intro x hx y hy
            have hx2 : node = x := by simpa using hx
            have hy2 : b = y := by simpa using hy
            rw [← hx2, ← hy2]
            exact hed b (List.mem_cons_self _ _)
        exact haux (adj g node) (fun b hb => hb) _ hs

theorem detect_cycles_sound (g : Graph) :
    ∀ c ∈ detect_cycles g, isClosedWalk g c := by
  have haux : ∀ (ks : List String) (t : DfsState),
      (∀ c ∈ t.cycles, isClosedWalk g c) →
      ∀ c ∈ (ks.foldl
          (fun s node => if node ∈ s.visited
            then s else dfsVisit g ((nodesOf g).length + 1) node [] s) t).cycles,
        isClosedWalk g c := by
    intro ks
    induction ks with
    | nil => intro t ht; simpa using ht
    | cons k ks2 ihk =>
      intro t ht
      simp only [List.foldl_cons]
      by_cases hk : k ∈ t.visited
      · rw [if_pos hk]; exact ihk t ht
      · rw [if_neg hk]
        refine ihk _ ?_
        refine dfs_sound g _ k [] t ?_ ht
        simp
  intro c hc
  simp only [detect_cycles] at hc
  exact haux (keysOf g) ⟨[], []⟩ (by simp) c hc

/-! ### Priority overrides do not change the dependency graph -/

theorem build_graph_override (ws : List Workstream) (ov : List (String × Int)) :
    build_dependency_graph (apply_priority_override ws ov) = build_dependency_graph ws := by
  have hid : ∀ w : Workstream,
      (match dictLookup ov w.id with
       | some p => { w with priority := p }
       | none => w).id = w.id := by
    intro w; cases hq : dictLookup ov w.id <;> simp [hq]
  have hdeps : ∀ w : Workstream,
      (match dictLookup ov w.id with
       | some p => { w with priority := p }
       | none => w).dependencies = w.dependencies := by
    intro w; cases hq : dictLookup ov w.id <;> simp [hq]
  have hany : ∀ s : String, ∀ l : List Workstream,
      ((l.map (fun w =>
        match dictLookup ov w.id with
        | some p => { w with priority := p }
        | none => w)).any (fun x => x.id == s)) = l.any (fun x => x.id == s) := by
    intro s l
    induction l with
    | nil => rfl
    | cons a l2 ihl => simp only [List.map_cons, List.any_cons, ihl, hid a]
  rw [build_dependency_graph, build_dependency_graph, apply_priority_override,
    List.foldl_map]
  apply List.foldl_ext
  intro gs w hw
  rw [hdeps w]
  apply List.foldl_ext
  intro gs2 dep hdep
  rw [hany dep.source_workstream_id ws, hany dep.target_workstream_id ws]

/-- **C2.**  For every item set whose dependency graph contains a cycle,
scheduling fails: build_execution_plan returns the error carrying the
detector's nonempty cycle list, every reported cycle is a genuine closed
walk of the dependency graph (it names the cycle's member ids), and
start_orchestration — with or without a priority override, which leaves the
graph unchanged — propagates the same error before any state is registered
or any execution is launched. -/
theorem C2_cycle_aborts_scheduling_and_start
    (request : OrchestrationRequest) (oid : String) (now : Nat)
    (h : hasCycle (build_dependency_graph request.workstreams).1) :
    ∃ cycles : List (List String), cycles ≠ [] ∧
      (∀ c ∈ cycles, isClosedWalk (build_dependency_graph request.workstreams).1 c) ∧
      build_execution_plan request.workstreams = .error cycles ∧
      start_orchestration request oid now = .error cycles := by
  have hne : detect_cycles (build_dependency_graph request.workstreams).1 ≠ [] :=
    detect_cycles_complete _ h
  cases hd : detect_cycles (build_dependency_graph request.workstreams).1 with
  | nil => exact absurd hd hne
  | cons c cs =>
    refine ⟨c :: cs, by simp, ?_, ?_, ?_⟩
    · intro c2 hc2
      exact detect_cycles_sound _ c2 (hd ▸ hc2)
    · simp only [build_execution_plan]
      rw [hd]
    · have hplan : build_execution_plan request.workstreams = .error (c :: cs) := by
        simp only [build_execution_plan]
        rw [hd]
      simp only [start_orchestration]
      cases hov : request.priority_override with
      | none =>
        simp only [hov]
        rw [hplan]
      | some ov =>
        simp only [hov]
        have hplan2 : build_execution_plan (apply_priority_override request.workstreams ov)
            = .error (c :: cs) := by
          simp only [build_execution_plan, build_graph_override]
          rw [hd]
        rw [hplan2]

/-- Witness: the two-cycle request trips C2 concretely. -/
theorem C2_cycle_aborts_scheduling_and_start_witness :
    hasCycle (build_dependency_graph c2_request.workstreams).1 ∧
    ∃ cycles : List (List String), cycles ≠ [] ∧
      (∀ c ∈ cycles, isClosedWalk (build_dependency_graph c2_request.workstreams).1 c) ∧
      build_execution_plan c2_request.workstreams = .error cycles ∧
      start_orchestration c2_request "o1" 0 = .error cycles :=
  ⟨⟨"A", ["B"], List.Chain.cons (by decide) (List.Chain.cons (by decide) List.Chain.nil)⟩,
   C2_cycle_aborts_scheduling_and_start c2_request "o1" 0
     ⟨"A", ["B"], List.Chain.cons (by decide) (List.Chain.cons (by decide) List.Chain.nil)⟩⟩
